import Mathlib

/-!
The package logx: the process-wide logging dispatcher of go-zero (`core/logx/logs.go`)

A shallow embedding of `logs.go`.  Go values of type `any` are given by the
type `Any`; the package-level variables are the fields of `Sys`; every function
that touches them takes the state and returns the new one.  What the program
does to the outside world (a call of a writer method, a call of a callback, a
record handed to the formatter, a line on the standard logger) is appended to
`Sys.trace`, so that "nothing happens" is the statement that the state,
trace included, is unchanged.  A function that may panic or end the process
returns a `Completion` next to the state.

Functions whose text is not in `logs.go` (`fmt.Sprint`, `debug.Stack`,
`time.Now`, `json.Marshal`, the file-backed writer) are the fields of
`Runtime`; every definition and theorem is stated for an arbitrary `Runtime`.
-/

namespace Logx

/-! ## Values -/

/-- The value carried by a panic, as `recover()` hands it back.  Only its
rendering under the `%v` verb is observed.  (Since Go 1.21 `recover()` is
non-nil whenever a panic is in flight.) -/
structure PanicValue where
  text : String
  deriving DecidableEq, Repr

/-- What a call of a user-supplied method does: it returns a string, or panics. -/
inductive Outcome where
  | ret (s : String)
  | panics (v : PanicValue)
  deriving DecidableEq, Repr

/-- A non-nil value of some dynamic type, as far as `logs.go` can observe it:
whether it is a nil pointer (`reflect`: kind `Ptr` and `IsNil`), and what its
`Error()` and `String()` methods do, for each of the two it has. -/
structure Obj where
  nilPtr : Bool
  errorM : Option Outcome
  stringM : Option Outcome
  deriving DecidableEq, Repr

/-- A non-nil value of interface type `error`: an object with an `Error` method. -/
abbrev ErrorValue := { o : Obj // o.errorM.isSome = true }

/-- A non-nil value of interface type `fmt.Stringer`. -/
abbrev StringerValue := { o : Obj // o.stringM.isSome = true }

/-- A value of interface type `error`; `none` is the nil interface. -/
abbrev GoError := Option ErrorValue

/-- A value of interface type `fmt.Stringer`; `none` is the nil interface. -/
abbrev GoStringer := Option StringerValue

/-- A `time.Time`, kept abstract. -/
structure Time where
  unixNano : Int
  deriving DecidableEq, Repr

/-- Go values of static type `any`, split by the dynamic types that the type
switch of `Field` tells apart.  A single `time.Time` is an `obj` with a
`String` method.  A Go string is a sequence of bytes: `str` is a string whose
bytes are the UTF-8 encoding of a text, `rawStr` is a string given by its
bytes (each below 256), for the strings that are not valid UTF-8. -/
inductive Any where
  | nilValue
  | str (s : String)
  | rawStr (bytes : List Nat)
  | int (n : Int)
  | bool (b : Bool)
  | strs (ss : List String)
  | duration (d : Int)
  | durations (ds : List Int)
  | times (ts : List Time)
  | errors (es : List GoError)
  | stringers (vs : List GoStringer)
  | obj (o : Obj)
  deriving DecidableEq, Repr

/-- The test `v.Kind() == reflect.Ptr && v.IsNil()` on `reflect.ValueOf(arg)`. -/
def Any.isNilPtr : Any → Bool
  | .obj o => o.nilPtr
  | _ => false

/-- An `error` seen as an `any`. -/
def GoError.toAny : GoError → Any
  | none => .nilValue
  | some e => .obj e.val

/-- A `fmt.Stringer` seen as an `any`. -/
def GoStringer.toAny : GoStringer → Any
  | none => .nilValue
  | some v => .obj v.val

/-- The panic of the Go runtime on a method call through a nil interface. -/
def nilDereference : PanicValue :=
  ⟨"runtime error: invalid memory address or nil pointer dereference"⟩

/-- The call `err.Error()`. -/
def GoError.Error : GoError → Outcome
  | none => .panics nilDereference
  | some e => e.val.errorM.get e.property

/-- The call `v.String()`. -/
def GoStringer.String : GoStringer → Outcome
  | none => .panics nilDereference
  | some v => v.val.stringM.get v.property

/-- The function `errors.New`: a non-nil pointer whose `Error` returns `text`. -/
def errorsNew (text : String) : ErrorValue :=
  ⟨⟨false, some (.ret text), none⟩, rfl⟩

structure LogField where
  Key : String
  Value : Any
  deriving DecidableEq, Repr

/-- The Go map `logEntry`, as the list of its key/value pairs, keys distinct. -/
abbrev logEntry := List (String × Any)

/-- The assignment `entry[k] = v`. -/
def logEntry.set : logEntry → String → Any → logEntry
  | [], k, v => [(k, v)]
  | (k1, v1) :: rest, k, v =>
    if k1 = k then (k, v) :: rest else (k1, v1) :: logEntry.set rest k v

/-- The lookup `entry[k]` with its `ok` flag. -/
def logEntry.get? (entry : logEntry) (k : String) : Option Any :=
  (entry.find? (fun p => p.1 = k)).map (fun p => p.2)

/-! ## Writers, formatters, events -/

/-- Modelled from the spec: the `Writer` interface and its variants (their file,
`writer.go`, is not among the sources).  The spec names a console writer, a
rotating-file writer, a fan-out combinator holding an ordered list of writers,
and a no-op writer; `user` stands for a writer supplied by the application. -/
inductive Writer where
  | console
  | file (path : String)
  | combo (writers : List Writer)
  | nop
  | user (id : Nat)
  deriving Repr

/-- The constructor `newConsoleWriter()`. -/
def newConsoleWriter : Writer := .console

/-- The value `nopWriter{}`. -/
def nopWriter : Writer := .nop

/-- The value `comboWriter{writers: ws}`. -/
def comboWriter (ws : List Writer) : Writer := .combo ws

/-- The methods of the `Writer` interface other than `Close`, one per channel. -/
inductive Channel where
  | Alert | Debug | Error | Info | Severe | Slow | Stack | Stat
  deriving DecidableEq, Repr

/-- The rotation rules built by `createOutput`; their constructors
(`NewSizeLimitRotateRule`, `DefaultRotateRule`) are kept as data. -/
inductive RotateRule where
  | sizeLimit (path delimiter : String) (keepDays maxSize maxBackups : Int) (gzip : Bool)
  | daily (path delimiter : String) (keepDays : Int) (gzip : Bool)
  deriving DecidableEq, Repr

/-- The `io.WriteCloser` that `NewLogger` hands back, kept abstract. -/
structure Output where
  path : String
  rule : RotateRule
  deriving DecidableEq, Repr

/-- The implementations of the `Formatter` interface: the two of the package
(the values `&JsonFormatter{}` and `&PlainFormatter{}`), and any other, given
by the name of its concrete type, which is not one of these two, and by what
its `Format` returns. -/
inductive Formatter where
  | JsonFormatter
  | PlainFormatter
  | custom (typ : String) (Format : logEntry → String × GoError)

/-- The concrete (dynamic) type of a formatter value. -/
def Formatter.typeOf : Formatter → String
  | .JsonFormatter => "*logx.JsonFormatter"
  | .PlainFormatter => "*logx.PlainFormatter"
  | .custom typ _ => typ

/-- What the program does to the outside world. -/
inductive Event where
  /-- the method `ch` of writer `w` is called with `v` and `fields` -/
  | write (w : Writer) (ch : Channel) (v : String) (fields : List LogField)
  /-- the `Close` method of writer `w` is called -/
  | close (w : Writer)
  /-- the callback of an fn variant is called -/
  | callback
  /-- a record is built and handed to the active formatter -/
  | record (entry : logEntry)
  /-- a line is printed by the standard library logger (`log.Print`, `log.Printf`) -/
  | stdlog (msg : String)

def Event.isWrite : Event → Bool
  | .write _ _ _ _ => true
  | _ => false

def Event.isRecord : Event → Bool
  | .record _ => true
  | _ => false

def Event.isCallback : Event → Bool
  | .callback => true
  | _ => false

/-! ## Constants declared outside `logs.go` -/

/-- Modelled from the spec: the level constants (declared in a file that is not
among the sources).  The spec orders them numerically, debug below info below
error below severe, with the disable level above all real levels. -/
def DebugLevel : Nat := 0

/-- Modelled from the spec: see `DebugLevel`. -/
def InfoLevel : Nat := 1

/-- Modelled from the spec: see `DebugLevel`. -/
def ErrorLevel : Nat := 2

/-- Modelled from the spec: see `DebugLevel`. -/
def SevereLevel : Nat := 3

/-- Modelled from the spec: the disable level, above all real levels. -/
def disableLevel : Nat := 0xff

/-- Modelled from the spec: the names of the levels in a configuration. -/
def levelDebug : String := "debug"

/-- Modelled from the spec: see `levelDebug`. -/
def levelInfo : String := "info"

/-- Modelled from the spec: see `levelDebug`. -/
def levelError : String := "error"

/-- Modelled from the spec: see `levelDebug`. -/
def levelSevere : String := "severe"

/-- Modelled from the spec: the logging modes console / file / volume. -/
def fileMode : String := "file"

/-- Modelled from the spec: see `fileMode`. -/
def volumeMode : String := "volume"

/-- Modelled from the spec: the selector of the size-based rotation rule. -/
def sizeRotationRule : String := "size"

/-- Modelled from the spec: the delimiter of backup file names. -/
def backupFileDelimiter : String := "-"

/-- Modelled from the spec: the key of the caller-location field. -/
def callerKey : String := "caller"

/-- Modelled from the spec: the fixed sentinel of the nil-pointer case. -/
def nilAngleString : String := "<nil>"

/-- Modelled from the spec: the sentinel "log path not configured". -/
def ErrLogPathNotSet : ErrorValue := errorsNew "log path not configured"

/-- Modelled from the spec: the sentinel "service name not configured". -/
def ErrLogServiceNameNotSet : ErrorValue := errorsNew "service name not configured"

def callerDepth : Nat := 4

/-! ## The package-level state -/

structure logOptions where
  gzipEnabled : Bool
  logStackCooldownMills : Int
  keepDays : Int
  maxBackups : Int
  maxSize : Int
  rotationRule : String
  deriving DecidableEq, Repr

/-- The fields of `LogConf` that `logs.go` reads (the type is declared in a file
that is not among the sources). -/
structure LogConf where
  ServiceName : String
  Mode : String
  TimeFormat : String
  FileTimeFormat : String
  Path : String
  Level : String
  MaxContentLength : Nat
  Stat : Bool
  deriving DecidableEq, Repr

/-- The package-level variables.  `logLevel`, `disableStat` and
`maxContentLength` are `uint32` in the source; no arithmetic is done on them,
they are only stored and compared.  `writer` is the slot of the
`atomicWriter`, `none` when it holds nil.  `setupOnce` is the done flag of the
`sync.Once`.  `ExitOnFatal` and `fileTimeFormat` are declared in other files of
the package. -/
structure Sys where
  timeFormat : String
  fileTimeFormat : String
  formatter : Formatter
  maxContentLength : Nat
  disableStat : Nat
  logLevel : Nat
  options : logOptions
  writer : Option Writer
  setupOnce : Bool
  ExitOnFatal : Bool
  trace : List Event

/-- The library and the environment: everything `logs.go` calls whose text is
not in `logs.go` and that is not modelled above: the standard library, the
clock and the call stack, and the functions of the package that live in other
files (`getCaller`, `mergeGlobalFields`, `NewLogger`, `newFileWriter`). -/
structure Runtime where
  /-- the rendering of one value under the verb `%v`, which is also what
  `fmt.Sprint` yields for a single operand -/
  fmtV : Any → String
  /-- the function `fmt.Sprint` on the operands of a variadic call -/
  Sprint : List Any → String
  /-- the function `fmt.Sprintf` on a format supplied by the caller -/
  Sprintf : String → List Any → String
  /-- the message of `fmt.Errorf(format, v...)` -/
  Errorf : String → List Any → String
  /-- the function `fmt.Sprint` on one `time.Duration` -/
  SprintDuration : Int → String
  /-- the function `fmt.Sprint` on one `time.Time` -/
  SprintTime : Time → String
  /-- the text `time.Now().Format(layout)` -/
  now : String → String
  /-- the text of `debug.Stack()` -/
  Stack : String
  /-- the function `getCaller` -/
  getCaller : Nat → String
  /-- the function `mergeGlobalFields` -/
  mergeGlobalFields : List LogField → List LogField
  /-- the function `sysx.Hostname` -/
  Hostname : String
  /-- the function `path.Join` -/
  pathJoin : List String → String
  /-- what the function `json.Marshal` returns on a record, when it returns -/
  jsonMarshal : logEntry → String × GoError
  /-- the panic, if there is one, that leaves the call `f.Format(entry)`: a
  panic in the code of the formatter, or the panic of a `MarshalJSON` method of
  a value of the record, which `json.Marshal` passes on -/
  formatPanic : Formatter → logEntry → Option PanicValue
  /-- the function `NewLogger` -/
  NewLogger : String → RotateRule → Bool → Option Output × GoError
  /-- the function `newFileWriter`, which may touch the package state -/
  newFileWriter : LogConf → Sys → Except ErrorValue Writer × Sys
  /-- what the `Close` method of a writer returns -/
  closeWriter : Writer → GoError

/-! ## The encoder -/

/-- The function `encodeWithRecover`: run `fn`; the deferred function turns a
panic into the nil sentinel when `arg` is a nil pointer and into
`fmt.Sprintf("panic: %v", err)` otherwise. -/
def encodeWithRecover (arg : Any) (fn : Unit → Outcome) : String :=
  match fn () with
  | .ret s => s
  | .panics err =>
    if arg.isNilPtr then nilAngleString else "panic: " ++ err.text

def encodeError (err : GoError) : String :=
  encodeWithRecover err.toAny (fun _ => err.Error)

def encodeStringer (v : GoStringer) : String :=
  encodeWithRecover v.toAny (fun _ => v.String)

/-- The type assertion `value.(error)`. -/
def Any.asError : Any → Option ErrorValue
  | .obj o => if h : o.errorM.isSome = true then some ⟨o, h⟩ else none
  | _ => none

/-- The type assertion `value.(fmt.Stringer)`, for a value that is none of
`time.Duration`, `[]time.Duration`, `[]time.Time`. -/
def Any.asStringer : Any → Option StringerValue
  | .obj o => if h : o.stringM.isSome = true then some ⟨o, h⟩ else none
  | _ => none

/-- The function `Field`: the cases of the type switch, in the order of the source. -/
def Field (rt : Runtime) (key : String) (value : Any) : LogField :=
  match value.asError with
  | some val => ⟨key, .str (encodeError (some val))⟩
  | none =>
  match value with
  | .errors val => ⟨key, .strs (val.map encodeError)⟩
  | .duration val => ⟨key, .str (rt.SprintDuration val)⟩
  | .durations val => ⟨key, .strs (val.map rt.SprintDuration)⟩
  | .times val => ⟨key, .strs (val.map rt.SprintTime)⟩
  | _ =>
  match value.asStringer with
  | some val => ⟨key, .str (encodeStringer (some val))⟩
  | none =>
  match value with
  | .stringers val => ⟨key, .strs (val.map encodeStringer)⟩
  | _ => ⟨key, value⟩

/-! ## The formatters -/

/-- The method `PlainFormatter.Format`; ranging over the map visits the pairs
in the order of the list.  The formats `"%v "`, `"%v"` and `" %s=%v"` are
spelled out: the literal text around the `%v` rendering of the operand. -/
def PlainFormatter.Format (rt : Runtime) (entry : logEntry) : String × GoError :=
  let buf := ""
  let buf := match entry.get? "@timestamp" with
    | some t => buf ++ (rt.fmtV t ++ " ")
    | none => buf
  let buf := match entry.get? "level" with
    | some lvl => buf ++ (rt.fmtV lvl ++ " ")
    | none => buf
  let buf := match entry.get? "message" with
    | some msg => buf ++ rt.fmtV msg
    | none => buf
  let buf := entry.foldl (fun buf p =>
    if p.1 ≠ "@timestamp" ∧ p.1 ≠ "level" ∧ p.1 ≠ "message" then
      buf ++ (" " ++ p.1 ++ "=" ++ rt.fmtV p.2)
    else buf) buf
  (buf ++ "\n", none)

/-- The method `JsonFormatter.Format`. -/
def JsonFormatter.Format (rt : Runtime) (entry : logEntry) : String × GoError :=
  rt.jsonMarshal entry

/-- The dynamic dispatch of `f.Format(entry)`: what the call returns, when it
returns.  Whether it returns at all is told by `Formatter.call`. -/
def Formatter.Format (rt : Runtime) : Formatter → logEntry → String × GoError
  | .JsonFormatter, entry => JsonFormatter.Format rt entry
  | .PlainFormatter, entry => PlainFormatter.Format rt entry
  | .custom _ f, entry => f entry

def defaultFormatter : Formatter := .JsonFormatter

/-! ## The dispatcher -/

/-- Append an event to the trace. -/
def Sys.emit (s : Sys) (e : Event) : Sys :=
  { s with trace := s.trace ++ [e] }

/-- The events that happened between state `s` and the later state `t`. -/
def Sys.since (t s : Sys) : List Event :=
  t.trace.drop s.trace.length

/-- The state at process start, after `init`: the zero values, the default
formatter and the default time format.  (`ExitOnFatal` and `fileTimeFormat`
are initialised in other files; they are taken to start as true and empty.) -/
def Sys.start : Sys :=
  { timeFormat := "2006-01-02T15:04:05.000Z07:00"
    fileTimeFormat := ""
    formatter := defaultFormatter
    maxContentLength := 0
    disableStat := 0
    logLevel := 0
    options := ⟨false, 0, 0, 0, 0, ""⟩
    writer := none
    setupOnce := false
    ExitOnFatal := true
    trace := [] }

/-- How a call ends: it returns, the process exits, or a panic leaves it. -/
inductive Completion where
  | returns
  | exits (code : Nat)
  | panics (v : PanicValue)
  deriving DecidableEq, Repr

/-- The method `Store` of `sync/atomic.Value`, for the variable `formatter`,
which holds a value from `init` on.  All stores into one `Value` must use the
same concrete type: a store of a value of another concrete type panics and
stores nothing. -/
def formatter.Store (f : Formatter) (s : Sys) : Completion × Sys :=
  if f.typeOf = s.formatter.typeOf then (.returns, { s with formatter := f })
  else (.panics ⟨"sync/atomic: store of inconsistently typed value into Value"⟩, s)

/-- The function `SetFormatter`; `none` is the nil interface. -/
def SetFormatter (f : Option Formatter) (s : Sys) : Completion × Sys :=
  match f with
  | none => formatter.Store defaultFormatter s
  | some f => formatter.Store f s

/-- Modelled from the spec: `atomicWriter.Swap` (the type is declared in a file
that is not among the sources): store the new value, hand back the old one. -/
def atomicWriter.Swap (v : Option Writer) (s : Sys) : Option Writer × Sys :=
  (s.writer, { s with writer := v })

/-- Modelled from the spec: `atomicWriter.Store`. -/
def atomicWriter.Store (v : Writer) (s : Sys) : Sys :=
  { s with writer := some v }

/-- Modelled from the spec: `atomicWriter.Load`. -/
def atomicWriter.Load (s : Sys) : Option Writer :=
  s.writer

/-- Modelled from the spec: `atomicWriter.StoreIfNil`: store `v` when the slot
is empty, and hand back what the slot holds ("implicit console writer
materializes lazily on first use"). -/
def atomicWriter.StoreIfNil (v : Writer) (s : Sys) : Writer × Sys :=
  match s.writer with
  | none => (v, { s with writer := some v })
  | some w => (w, s)

def shallLog (level : Nat) (s : Sys) : Bool :=
  decide (s.logLevel ≤ level)

def shallLogStat (s : Sys) : Bool :=
  decide (s.disableStat = 0)

def getWriter (s : Sys) : Writer × Sys :=
  match atomicWriter.Load s with
  | some w => (w, s)
  | none => atomicWriter.StoreIfNil newConsoleWriter s

def Reset (s : Sys) : Option Writer × Sys :=
  atomicWriter.Swap none s

def SetLevel (level : Nat) (s : Sys) : Sys :=
  { s with logLevel := level }

def SetWriter (w : Writer) (s : Sys) : Sys :=
  if s.logLevel ≠ disableLevel then atomicWriter.Store w s else s

def AddWriter (w : Writer) (s : Sys) : Sys :=
  match Reset s with
  | (none, s1) => SetWriter w s1
  | (some ow, s1) => SetWriter (comboWriter [ow, w]) s1

/-- The function `Close`; the second component is the returned error. -/
def Close (rt : Runtime) (s : Sys) : Sys × GoError :=
  match atomicWriter.Swap none s with
  | (some w, s1) => (s1.emit (.close w), rt.closeWriter w)
  | (none, s1) => (s1, none)

def Disable (s : Sys) : Sys :=
  atomicWriter.Store nopWriter { s with logLevel := disableLevel }

def DisableStat (s : Sys) : Sys :=
  { s with disableStat := 1 }

/-- The record that `formatEntry` builds. -/
def buildEntry (rt : Runtime) (level : String) (val : Any) (fields : List LogField)
    (s : Sys) : logEntry :=
  let entry : logEntry := []
  let entry := entry.set "@timestamp" (.str (rt.now s.timeFormat))
  let entry := entry.set "level" (.str level)
  let entry := match val with
    | .str v => entry.set "message" (.str v)
    | .rawStr v => entry.set "message" (.rawStr v)
    | _ => entry.set "message" (.str (rt.fmtV val))
  fields.foldl (fun entry f => entry.set f.Key f.Value) entry

/-- The function `formatEntry` on the calls of `f.Format(entry)` that return;
`formatEntryCall` below is the function with the panic of that call. -/
def formatEntry (rt : Runtime) (level : String) (val : Any) (fields : List LogField)
    (s : Sys) : String × Sys :=
  let entry := buildEntry rt level val fields s
  let s1 := s.emit (.record entry)
  match s1.formatter.Format rt entry with
  | (_, some err) =>
    (rt.fmtV val,
      s1.emit (.stdlog ("Failed to format log entry: " ++ rt.fmtV (.obj err.val))))
  | (data, none) => (data, s1)

/-- What the call `f.Format(entry)` does: it returns data and an error, or a
panic leaves it. -/
inductive FormatOutcome where
  | returns (data : String) (err : GoError)
  | panics (v : PanicValue)
  deriving DecidableEq

/-- The call `f.Format(entry)` in full: a panic leaves it, or it returns what
`Formatter.Format` gives. -/
def Formatter.call (rt : Runtime) (f : Formatter) (entry : logEntry) : FormatOutcome :=
  match rt.formatPanic f entry with
  | some v => .panics v
  | none => .returns (f.Format rt entry).1 (f.Format rt entry).2

/-- The function `formatEntry` in full, with the panic of `f.Format(entry)`:
`formatEntry` has no `recover`, so such a panic leaves `formatEntry` right
there, after the record is built and before anything is logged or returned.
When `Format` returns, this is `formatEntry`. -/
def formatEntryCall (rt : Runtime) (level : String) (val : Any) (fields : List LogField)
    (s : Sys) : Outcome × Sys :=
  let entry := buildEntry rt level val fields s
  let s1 := s.emit (.record entry)
  match s1.formatter.call rt entry with
  | .panics v => (.panics v, s1)
  | .returns _ (some err) =>
    (.ret (rt.fmtV val),
      s1.emit (.stdlog ("Failed to format log entry: " ++ rt.fmtV (.obj err.val))))
  | .returns data none => (.ret data, s1)

def addCaller (rt : Runtime) (fields : List LogField) : List LogField :=
  fields ++ [Field rt callerKey (.str (rt.getCaller callerDepth))]

/-- The call of method `ch` of writer `w`. -/
def Writer.call (w : Writer) (ch : Channel) (v : String) (fields : List LogField)
    (s : Sys) : Sys :=
  s.emit (.write w ch v fields)

def writeDebug (rt : Runtime) (val : Any) (fields : List LogField) (s : Sys) : Sys :=
  let (w, s1) := getWriter s
  let (data, s2) := formatEntry rt "debug" val fields s1
  w.call .Debug data (rt.mergeGlobalFields (addCaller rt fields)) s2

def writeError (rt : Runtime) (val : Any) (fields : List LogField) (s : Sys) : Sys :=
  let (w, s1) := getWriter s
  let (data, s2) := formatEntry rt "error" val fields s1
  w.call .Error data (rt.mergeGlobalFields (addCaller rt fields)) s2

def writeInfo (rt : Runtime) (val : Any) (fields : List LogField) (s : Sys) : Sys :=
  let (w, s1) := getWriter s
  let (data, s2) := formatEntry rt "info" val fields s1
  w.call .Info data (rt.mergeGlobalFields (addCaller rt fields)) s2

def writeSevere (rt : Runtime) (msg : String) (s : Sys) : Sys :=
  let (w, s1) := getWriter s
  w.call .Severe (msg ++ "\n" ++ rt.Stack) [] s1

def writeSlow (rt : Runtime) (val : Any) (fields : List LogField) (s : Sys) : Sys :=
  let (w, s1) := getWriter s
  let (data, s2) := formatEntry rt "slow" val fields s1
  w.call .Slow data (rt.mergeGlobalFields (addCaller rt fields)) s2

def writeStack (rt : Runtime) (msg : String) (s : Sys) : Sys :=
  let (w, s1) := getWriter s
  w.call .Stack (msg ++ "\n" ++ rt.Stack) [] s1

def writeStat (rt : Runtime) (msg : String) (s : Sys) : Sys :=
  let (w, s1) := getWriter s
  w.call .Stat msg (rt.mergeGlobalFields (addCaller rt [])) s1

def Alert (v : String) (s : Sys) : Sys :=
  let (w, s1) := getWriter s
  w.call .Alert v [] s1

def Debug (rt : Runtime) (v : List Any) (s : Sys) : Sys :=
  if shallLog DebugLevel s then writeDebug rt (.str (rt.Sprint v)) [] s else s

def Debugf (rt : Runtime) (format : String) (v : List Any) (s : Sys) : Sys :=
  if shallLog DebugLevel s then writeDebug rt (.str (rt.Sprintf format v)) [] s else s

def Debugfn (rt : Runtime) (fn : Unit → Any) (s : Sys) : Sys :=
  if shallLog DebugLevel s then writeDebug rt (fn ()) [] (s.emit .callback) else s

def Debugv (rt : Runtime) (v : Any) (s : Sys) : Sys :=
  if shallLog DebugLevel s then writeDebug rt v [] s else s

def Debugw (rt : Runtime) (msg : String) (fields : List LogField) (s : Sys) : Sys :=
  if shallLog DebugLevel s then writeDebug rt (.str msg) fields s else s

def Error (rt : Runtime) (v : List Any) (s : Sys) : Sys :=
  if shallLog ErrorLevel s then writeError rt (.str (rt.Sprint v)) [] s else s

def Errorf (rt : Runtime) (format : String) (v : List Any) (s : Sys) : Sys :=
  if shallLog ErrorLevel s then writeError rt (.str (rt.Errorf format v)) [] s else s

def Errorfn (rt : Runtime) (fn : Unit → Any) (s : Sys) : Sys :=
  if shallLog ErrorLevel s then writeError rt (fn ()) [] (s.emit .callback) else s

def ErrorStack (rt : Runtime) (v : List Any) (s : Sys) : Sys :=
  if shallLog ErrorLevel s then writeStack rt (rt.Sprint v) s else s

def ErrorStackf (rt : Runtime) (format : String) (v : List Any) (s : Sys) : Sys :=
  if shallLog ErrorLevel s then writeStack rt (rt.Sprintf format v) s else s

def Errorv (rt : Runtime) (v : Any) (s : Sys) : Sys :=
  if shallLog ErrorLevel s then writeError rt v [] s else s

def Errorw (rt : Runtime) (msg : String) (fields : List LogField) (s : Sys) : Sys :=
  if shallLog ErrorLevel s then writeError rt (.str msg) fields s else s

def Info (rt : Runtime) (v : List Any) (s : Sys) : Sys :=
  if shallLog InfoLevel s then writeInfo rt (.str (rt.Sprint v)) [] s else s

def Infof (rt : Runtime) (format : String) (v : List Any) (s : Sys) : Sys :=
  if shallLog InfoLevel s then writeInfo rt (.str (rt.Sprintf format v)) [] s else s

def Infofn (rt : Runtime) (fn : Unit → Any) (s : Sys) : Sys :=
  if shallLog InfoLevel s then writeInfo rt (fn ()) [] (s.emit .callback) else s

def Infov (rt : Runtime) (v : Any) (s : Sys) : Sys :=
  if shallLog InfoLevel s then writeInfo rt v [] s else s

def Infow (rt : Runtime) (msg : String) (fields : List LogField) (s : Sys) : Sys :=
  if shallLog InfoLevel s then writeInfo rt (.str msg) fields s else s

def Severe (rt : Runtime) (v : List Any) (s : Sys) : Sys :=
  if shallLog SevereLevel s then writeSevere rt (rt.Sprint v) s else s

def Severef (rt : Runtime) (format : String) (v : List Any) (s : Sys) : Sys :=
  if shallLog SevereLevel s then writeSevere rt (rt.Sprintf format v) s else s

def Slow (rt : Runtime) (v : List Any) (s : Sys) : Sys :=
  if shallLog ErrorLevel s then writeSlow rt (.str (rt.Sprint v)) [] s else s

def Slowf (rt : Runtime) (format : String) (v : List Any) (s : Sys) : Sys :=
  if shallLog ErrorLevel s then writeSlow rt (.str (rt.Sprintf format v)) [] s else s

def Slowfn (rt : Runtime) (fn : Unit → Any) (s : Sys) : Sys :=
  if shallLog ErrorLevel s then writeSlow rt (fn ()) [] (s.emit .callback) else s

def Slowv (rt : Runtime) (v : Any) (s : Sys) : Sys :=
  if shallLog ErrorLevel s then writeSlow rt v [] s else s

def Sloww (rt : Runtime) (msg : String) (fields : List LogField) (s : Sys) : Sys :=
  if shallLog ErrorLevel s then writeSlow rt (.str msg) fields s else s

def Stat (rt : Runtime) (v : List Any) (s : Sys) : Sys :=
  if shallLogStat s && shallLog InfoLevel s then writeStat rt (rt.Sprint v) s else s

def Statf (rt : Runtime) (format : String) (v : List Any) (s : Sys) : Sys :=
  if shallLogStat s && shallLog InfoLevel s then writeStat rt (rt.Sprintf format v) s else s

/-- The function `Must`.  The message is
`fmt.Sprintf("%+v\n\n%s", err.Error(), debug.Stack())`; a panic of `err.Error()`
leaves `Must` before anything is logged. -/
def Must (rt : Runtime) (err : GoError) (s : Sys) : Completion × Sys :=
  match err with
  | none => (.returns, s)
  | some _ =>
    match err.Error with
    | .panics v => (.panics v, s)
    | .ret text =>
      let msg := text ++ "\n\n" ++ rt.Stack
      let s1 := s.emit (.stdlog msg)
      let (w, s2) := getWriter s1
      let s3 := w.call .Severe msg [] s2
      if s3.ExitOnFatal then (.exits 1, s3) else (.panics ⟨msg⟩, s3)

/-- The built-in `len` on a string: its number of bytes. -/
def len (s : String) : Nat := s.utf8ByteSize

def WithCooldownMillis (millis : Int) : logOptions → logOptions :=
  fun opts => { opts with logStackCooldownMills := millis }

def WithKeepDays (days : Int) : logOptions → logOptions :=
  fun opts => { opts with keepDays := days }

def WithGzip : logOptions → logOptions :=
  fun opts => { opts with gzipEnabled := true }

def WithMaxBackups (count : Int) : logOptions → logOptions :=
  fun opts => { opts with maxBackups := count }

def WithMaxSize (size : Int) : logOptions → logOptions :=
  fun opts => { opts with maxSize := size }

def WithRotation (r : String) : logOptions → logOptions :=
  fun opts => { opts with rotationRule := r }

def handleOptions (opts : List (logOptions → logOptions)) (s : Sys) : Sys :=
  { s with options := opts.foldl (fun o opt => opt o) s.options }

/-- The function `createOutput`: the output and the error it returns. -/
def createOutput (rt : Runtime) (path : String) (s : Sys) : Option Output × GoError :=
  if len path = 0 then (none, some ErrLogPathNotSet)
  else
    let rule :=
      if s.options.rotationRule = sizeRotationRule then
        RotateRule.sizeLimit path backupFileDelimiter s.options.keepDays s.options.maxSize
          s.options.maxBackups s.options.gzipEnabled
      else
        RotateRule.daily path backupFileDelimiter s.options.keepDays s.options.gzipEnabled
    rt.NewLogger path rule s.options.gzipEnabled

def setupLogLevel (c : LogConf) (s : Sys) : Sys :=
  if c.Level = levelDebug then SetLevel DebugLevel s
  else if c.Level = levelInfo then SetLevel InfoLevel s
  else if c.Level = levelError then SetLevel ErrorLevel s
  else if c.Level = levelSevere then SetLevel SevereLevel s
  else s

def setupWithConsole (s : Sys) : Sys :=
  SetWriter newConsoleWriter s

def setupWithFiles (rt : Runtime) (c : LogConf) (s : Sys) : GoError × Sys :=
  match rt.newFileWriter c s with
  | (.error err, s1) => (some err, s1)
  | (.ok w, s1) => (none, SetWriter w s1)

def setupWithVolume (rt : Runtime) (c : LogConf) (s : Sys) : GoError × Sys :=
  if len c.ServiceName = 0 then (some ErrLogServiceNameNotSet, s)
  else
    setupWithFiles rt
      { c with Path := rt.pathJoin [c.Path, c.ServiceName, rt.Hostname] } s

/-- The body of the function passed to `setupOnce.Do`. -/
def setUpBody (rt : Runtime) (c : LogConf) (s : Sys) : GoError × Sys :=
  let s := setupLogLevel c s
  let s := if !c.Stat then DisableStat s else s
  let s := if len c.TimeFormat > 0 then { s with timeFormat := c.TimeFormat } else s
  let s := if len c.FileTimeFormat > 0 then { s with fileTimeFormat := c.FileTimeFormat } else s
  let s := { s with maxContentLength := c.MaxContentLength }
  if c.Mode = fileMode then setupWithFiles rt c s
  else if c.Mode = volumeMode then setupWithVolume rt c s
  else (none, setupWithConsole s)

/-- The function `SetUp`: `sync.Once` runs the body on the first call only, and
marks itself done when the body has returned. -/
def SetUp (rt : Runtime) (c : LogConf) (s : Sys) : GoError × Sys :=
  if s.setupOnce then (none, s)
  else
    let (err, s1) := setUpBody rt c s
    (err, { s1 with setupOnce := true })

def MustSetup (rt : Runtime) (c : LogConf) (s : Sys) : Completion × Sys :=
  let (err, s1) := SetUp rt c s
  Must rt err s1

/-! ## The level-gated entry points, as data -/

/-- A call of one of the level-gated entry points, with its arguments. -/
inductive EntryPoint where
  | Debug (v : List Any)
  | Debugf (format : String) (v : List Any)
  | Debugfn (fn : Unit → Any)
  | Debugv (v : Any)
  | Debugw (msg : String) (fields : List LogField)
  | Error (v : List Any)
  | Errorf (format : String) (v : List Any)
  | Errorfn (fn : Unit → Any)
  | ErrorStack (v : List Any)
  | ErrorStackf (format : String) (v : List Any)
  | Errorv (v : Any)
  | Errorw (msg : String) (fields : List LogField)
  | Info (v : List Any)
  | Infof (format : String) (v : List Any)
  | Infofn (fn : Unit → Any)
  | Infov (v : Any)
  | Infow (msg : String) (fields : List LogField)
  | Severe (v : List Any)
  | Severef (format : String) (v : List Any)
  | Slow (v : List Any)
  | Slowf (format : String) (v : List Any)
  | Slowfn (fn : Unit → Any)
  | Slowv (v : Any)
  | Sloww (msg : String) (fields : List LogField)
  | Stat (v : List Any)
  | Statf (format : String) (v : List Any)

/-- Run the function of the source that the call names. -/
def EntryPoint.run (rt : Runtime) : EntryPoint → Sys → Sys
  | .Debug v => Logx.Debug rt v
  | .Debugf format v => Logx.Debugf rt format v
  | .Debugfn fn => Logx.Debugfn rt fn
  | .Debugv v => Logx.Debugv rt v
  | .Debugw msg fields => Logx.Debugw rt msg fields
  | .Error v => Logx.Error rt v
  | .Errorf format v => Logx.Errorf rt format v
  | .Errorfn fn => Logx.Errorfn rt fn
  | .ErrorStack v => Logx.ErrorStack rt v
  | .ErrorStackf format v => Logx.ErrorStackf rt format v
  | .Errorv v => Logx.Errorv rt v
  | .Errorw msg fields => Logx.Errorw rt msg fields
  | .Info v => Logx.Info rt v
  | .Infof format v => Logx.Infof rt format v
  | .Infofn fn => Logx.Infofn rt fn
  | .Infov v => Logx.Infov rt v
  | .Infow msg fields => Logx.Infow rt msg fields
  | .Severe v => Logx.Severe rt v
  | .Severef format v => Logx.Severef rt format v
  | .Slow v => Logx.Slow rt v
  | .Slowf format v => Logx.Slowf rt format v
  | .Slowfn fn => Logx.Slowfn rt fn
  | .Slowv v => Logx.Slowv rt v
  | .Sloww msg fields => Logx.Sloww rt msg fields
  | .Stat v => Logx.Stat rt v
  | .Statf format v => Logx.Statf rt format v

/-- The gate level that the specification gives each entry point: Debug for the
Debug family, Info for the Info family and for Stat/Statf, Error for the Error,
ErrorStack and Slow families, Severe for the Severe family. -/
def EntryPoint.gateLevel : EntryPoint → Nat
  | .Debug _ | .Debugf _ _ | .Debugfn _ | .Debugv _ | .Debugw _ _ => DebugLevel
  | .Info _ | .Infof _ _ | .Infofn _ | .Infov _ | .Infow _ _ => InfoLevel
  | .Error _ | .Errorf _ _ | .Errorfn _ | .Errorv _ | .Errorw _ _ => ErrorLevel
  | .ErrorStack _ | .ErrorStackf _ _ => ErrorLevel
  | .Slow _ | .Slowf _ _ | .Slowfn _ | .Slowv _ | .Sloww _ _ => ErrorLevel
  | .Severe _ | .Severef _ _ => SevereLevel
  | .Stat _ | .Statf _ _ => InfoLevel

/-- Whether the specification makes the entry point depend on the stat flag. -/
def EntryPoint.needsStat : EntryPoint → Bool
  | .Stat _ | .Statf _ _ => true
  | _ => false

/-- The gate of the specification: the threshold is at most the gate level, and
for Stat/Statf the stat flag is enabled. -/
def EntryPoint.gate (c : EntryPoint) (s : Sys) : Bool :=
  decide (s.logLevel ≤ c.gateLevel) && (!c.needsStat || decide (s.disableStat = 0))

/-- The writer that an event calls, for a call of a writer method. -/
def Event.writer? : Event → Option Writer
  | .write w _ _ _ => some w
  | _ => none

/-- The channel that an event calls, for a call of a writer method. -/
def Event.channel? : Event → Option Channel
  | .write _ ch _ _ => some ch
  | _ => none

/-- A state transformer that appends to the trace exactly one call of a writer
method, on channel `ch` of the writer that `getWriter` yields, and leaves that
writer in the slot. -/
def WritesOnce (ch : Channel) (f : Sys → Sys) : Prop :=
  ∀ s, ∃ evs, (f s).trace = s.trace ++ evs ∧ evs.countP Event.isWrite = 1 ∧
    (∀ e ∈ evs, e.isWrite = true →
      e.writer? = some (getWriter s).1 ∧ e.channel? = some ch) ∧
    (f s).writer = some (getWriter s).1

/-- The channel that each entry point writes to. -/
def EntryPoint.channel : EntryPoint → Channel
  | .Debug _ | .Debugf _ _ | .Debugfn _ | .Debugv _ | .Debugw _ _ => .Debug
  | .Info _ | .Infof _ _ | .Infofn _ | .Infov _ | .Infow _ _ => .Info
  | .Error _ | .Errorf _ _ | .Errorfn _ | .Errorv _ | .Errorw _ _ => .Error
  | .ErrorStack _ | .ErrorStackf _ _ => .Stack
  | .Slow _ | .Slowf _ _ | .Slowfn _ | .Slowv _ | .Sloww _ _ => .Slow
  | .Severe _ | .Severef _ _ => .Severe
  | .Stat _ | .Statf _ _ => .Stat

/-- A state with a writer of the application in the slot and threshold Info. -/
def Sys.sample : Sys :=
  { Sys.start with writer := some (.user 1), logLevel := InfoLevel }

/-- The values that the encoding table does not name: neither an error, nor a
duration, nor a stringer, nor a list of errors, durations, timestamps or
stringers. -/
def Any.unlisted : Any → Bool
  | .nilValue | .str _ | .rawStr _ | .int _ | .bool _ | .strs _ => true
  | .obj o => o.errorM.isNone && o.stringM.isNone
  | _ => false

/-- A runtime for evaluating the definitions on concrete inputs. -/
def Runtime.sample : Runtime :=
  { fmtV := fun v => match v with
      | .str t => t
      | .int n => toString n
      | _ => "?"
    Sprint := fun vs => String.join (vs.map (fun v => match v with
      | .str t => t
      | .int n => toString n
      | _ => "?"))
    Sprintf := fun format _ => format
    Errorf := fun format _ => format
    SprintDuration := fun d => toString d ++ "ns"
    SprintTime := fun t => toString t.unixNano
    now := fun _ => "T0"
    Stack := "stack"
    getCaller := fun _ => "logs.go:1"
    mergeGlobalFields := fun fs => fs
    Hostname := "host"
    pathJoin := fun ps => String.intercalate "/" ps
    jsonMarshal := fun _ => ("json", none)
    formatPanic := fun _ _ => none
    NewLogger := fun p r _ => (some ⟨p, r⟩, none)
    newFileWriter := fun c s => (.ok (.file c.Path), s)
    closeWriter := fun _ => none }

/-- A runtime in which the value logged under the key `user` has a
`MarshalJSON` method that panics with `boom`: `json.Marshal` passes the panic
on, so the call of the JSON formatter on a record with that key panics. -/
def Runtime.panicking : Runtime :=
  { Runtime.sample with
    formatPanic := fun f entry =>
      match f, entry.get? "user" with
      | .JsonFormatter, some _ => some ⟨"boom"⟩
      | _, _ => none }

/-- A nil pointer of a type whose `Error` method reads through its receiver:
as an `error` it is not nil, and the call of `Error()` panics. -/
def nilPointerError : ErrorValue :=
  ⟨⟨true, some (.panics nilDereference), none⟩, rfl⟩

/-- A runtime whose `json.Marshal` rejects the record (as it does for a record
that holds a value it cannot serialise, a channel or a function, say). -/
def Runtime.failing : Runtime :=
  { Runtime.sample with
    jsonMarshal := fun _ => ("", some (errorsNew "json: unsupported type")) }

/-- The level name, the message value and the fields that a call of the Debug,
Info, Error and Slow families hands to its write function; `none` for the
other families. -/
def EntryPoint.record? (rt : Runtime) : EntryPoint → Option (String × Any × List LogField)
  | .Debug v => some ("debug", .str (rt.Sprint v), [])
  | .Debugf format v => some ("debug", .str (rt.Sprintf format v), [])
  | .Debugfn fn => some ("debug", fn (), [])
  | .Debugv v => some ("debug", v, [])
  | .Debugw msg fields => some ("debug", .str msg, fields)
  | .Error v => some ("error", .str (rt.Sprint v), [])
  | .Errorf format v => some ("error", .str (rt.Errorf format v), [])
  | .Errorfn fn => some ("error", fn (), [])
  | .Errorv v => some ("error", v, [])
  | .Errorw msg fields => some ("error", .str msg, fields)
  | .Info v => some ("info", .str (rt.Sprint v), [])
  | .Infof format v => some ("info", .str (rt.Sprintf format v), [])
  | .Infofn fn => some ("info", fn (), [])
  | .Infov v => some ("info", v, [])
  | .Infow msg fields => some ("info", .str msg, fields)
  | .Slow v => some ("slow", .str (rt.Sprint v), [])
  | .Slowf format v => some ("slow", .str (rt.Sprintf format v), [])
  | .Slowfn fn => some ("slow", fn (), [])
  | .Slowv v => some ("slow", v, [])
  | .Sloww msg fields => some ("slow", .str msg, fields)
  | _ => none

/-- The events of one formatted write on channel `ch`: the record handed to the
formatter, the line on the standard logger when the formatter fails, and the
call of the writer with the formatter output, or with the rendering of the raw
value when the formatter fails. -/
def formattedEvents (rt : Runtime) (level : String) (ch : Channel) (val : Any)
    (fields extra : List LogField) (s : Sys) : List Event :=
  match s.formatter.Format rt (buildEntry rt level val fields s) with
  | (data, none) =>
    [.record (buildEntry rt level val fields s), .write (getWriter s).1 ch data extra]
  | (_, some err) =>
    [.record (buildEntry rt level val fields s),
      .stdlog ("Failed to format log entry: " ++ rt.fmtV (.obj err.val)),
      .write (getWriter s).1 ch (rt.fmtV val) extra]

/-- The value that an event forwards to a writer, for a call of a writer method. -/
def Event.value? : Event → Option String
  | .write _ _ v _ => some v
  | _ => none

/-- The value of the last field of `fs` whose key is `k`, if there is one. -/
def lastField (fs : List LogField) (k : String) : Option Any :=
  (fs.reverse.find? (fun f => f.Key = k)).map (fun f => f.Value)

/-- The message of a record: the value itself when it is a string, its textual
rendering otherwise. -/
def messageOf (rt : Runtime) (val : Any) : Any :=
  match val with
  | .str v => .str v
  | .rawStr v => .rawStr v
  | _ => .str (rt.fmtV val)

/-- The pairs of a record other than the three reserved keys. -/
def logEntry.rest (entry : logEntry) : logEntry :=
  entry.filter (fun p => p.1 ≠ "@timestamp" ∧ p.1 ≠ "level" ∧ p.1 ≠ "message")

/-- A record with the three reserved keys and one more field. -/
def logEntry.sample : logEntry :=
  [("@timestamp", .str "T0"), ("level", .str "info"), ("message", .str "ready"),
    ("port", .int 8080)]

/-- The concatenation of a list of strings. -/
def joinAll : List String → String
  | [] => ""
  | x :: xs => x ++ joinAll xs

/-- The newline character. -/
def newline : Char := Char.ofNat 10

/-- The number of newline characters in a string. -/
def newlines (out : String) : Nat :=
  out.data.count newline

/-! ## JSON

`json.Marshal` belongs to the standard library.  On a record whose values are
strings and integers it writes one object, the keys in sorted order, without
white space: each string between quotes with the escapes below, each integer
in decimal.  `json.encode` is that text; `json.parseObject` reads such a text
back (an object whose members are strings and integers, without insignificant
white space), with every escape that JSON allows in a string. -/

namespace json

def quote : Char := Char.ofNat 34

def backslash : Char := Char.ofNat 92

def lbrace : Char := Char.ofNat 123

def rbrace : Char := Char.ofNat 125

/-- The hexadecimal digit, in lower case, of a number below 16. -/
def hexChar (n : Nat) : Char :=
  if n < 10 then Char.ofNat (48 + n) else Char.ofNat (87 + n)

/-- The four hexadecimal digits of a number below 65536. -/
def hex4 (n : Nat) : List Char :=
  [hexChar (n / 4096 % 16), hexChar (n / 256 % 16), hexChar (n / 16 % 16), hexChar (n % 16)]

/-- The characters that `json.Marshal` writes as a `\u` escape: the control
characters, the characters `<`, `>`, `&` (HTML escaping is on), and the line
and paragraph separators U+2028 and U+2029. -/
def escapedAsUnicode (c : Char) : Bool :=
  decide (c.toNat < 32) || decide (c.toNat = 60) || decide (c.toNat = 62) ||
    decide (c.toNat = 38) || decide (c.toNat = 8232) || decide (c.toNat = 8233)

/-- The text that `json.Marshal` writes for one character of a string.  When
`short` is set, backspace and form feed are written as `\b` and `\f` (Go 1.22
and later); otherwise as `\u0008` and `\u000c`. -/
def escapeChar (short : Bool) (c : Char) : List Char :=
  if c = quote then [backslash, quote]
  else if c = backslash then [backslash, backslash]
  else if c.toNat = 10 then [backslash, 'n']
  else if c.toNat = 13 then [backslash, 'r']
  else if c.toNat = 9 then [backslash, 't']
  else if short = true ∧ c.toNat = 8 then [backslash, 'b']
  else if short = true ∧ c.toNat = 12 then [backslash, 'f']
  else if escapedAsUnicode c = true then backslash :: 'u' :: hex4 c.toNat
  else [c]

def encodeString (short : Bool) (s : String) : List Char :=
  quote :: (s.data.flatMap (escapeChar short) ++ [quote])

/-- The decimal digits of `n`, least significant first; `fuel` bounds the
number of digits. -/
def digitsLE : Nat → Nat → List Nat
  | 0, _ => []
  | fuel + 1, n => if n = 0 then [] else (n % 10) :: digitsLE fuel (n / 10)

def digitChar (d : Nat) : Char := Char.ofNat (48 + d)

/-- The decimal text of a natural number. -/
def encodeNat (n : Nat) : List Char :=
  if n = 0 then [digitChar 0] else (digitsLE n n).reverse.map digitChar

/-- The decimal text of an integer. -/
def encodeInt : Int → List Char
  | .ofNat n => encodeNat n
  | .negSucc n => '-' :: encodeNat (n + 1)

/-- Whether a byte is a continuation byte of UTF-8. -/
def cont (b : Nat) : Bool := decide (128 ≤ b) && decide (b ≤ 191)

/-- The function `utf8.DecodeRune` at the head of a byte sequence: the code
point and the number of bytes of a well-formed UTF-8 sequence, `none` for a
byte that starts none. -/
def decodeRune : List Nat → Option (Nat × Nat)
  | [] => none
  | b0 :: rest =>
    if b0 < 128 then some (b0, 1)
    else if 194 ≤ b0 ∧ b0 ≤ 223 then
      match rest with
      | b1 :: _ => if cont b1 = true then some ((b0 - 192) * 64 + (b1 - 128), 2) else none
      | _ => none
    else if 224 ≤ b0 ∧ b0 ≤ 239 then
      match rest with
      | b1 :: b2 :: _ =>
        if (if b0 = 224 then 160 else 128) ≤ b1 ∧ b1 ≤ (if b0 = 237 then 159 else 191) ∧
            cont b2 = true then
          some ((b0 - 224) * 4096 + (b1 - 128) * 64 + (b2 - 128), 3)
        else none
      | _ => none
    else if 240 ≤ b0 ∧ b0 ≤ 244 then
      match rest with
      | b1 :: b2 :: b3 :: _ =>
        if (if b0 = 240 then 144 else 128) ≤ b1 ∧ b1 ≤ (if b0 = 244 then 143 else 191) ∧
            cont b2 = true ∧ cont b3 = true then
          some ((b0 - 240) * 262144 + (b1 - 128) * 4096 + (b2 - 128) * 64 + (b3 - 128), 4)
        else none
      | _ => none
    else none

/-- The runes of a byte sequence as `json.Marshal` reads them: a character for
each well-formed UTF-8 sequence, `none` for each byte that starts none.
`fuel` bounds the number of runes. -/
def runes : Nat → List Nat → List (Option Char)
  | 0, _ => []
  | _ + 1, [] => []
  | fuel + 1, b :: rest =>
    match decodeRune (b :: rest) with
    | some (cp, size) => some (Char.ofNat cp) :: runes fuel ((b :: rest).drop size)
    | none => none :: runes fuel rest

/-- The text that `json.Marshal` writes for a string given by its bytes: each
byte that is not part of a well-formed UTF-8 sequence is written as the escape
of the replacement character U+FFFD. -/
def encodeRaw (short : Bool) (bytes : List Nat) : List Char :=
  quote :: ((runes bytes.length bytes).flatMap (fun r =>
    match r with
    | some c => escapeChar short c
    | none => backslash :: 'u' :: hex4 65533) ++ [quote])

/-- The text of a value; `none` for a value that is neither a string nor an
integer. -/
def encodeValue (short : Bool) : Any → Option (List Char)
  | .str s => some (encodeString short s)
  | .rawStr bytes => some (encodeRaw short bytes)
  | .int i => some (encodeInt i)
  | _ => none

/-- The values that the round trip is about: strings that are valid UTF-8, and
integers. -/
def Plain : Any → Bool
  | .str _ => true
  | .int _ => true
  | _ => false

def encodeMember (short : Bool) (p : String × Any) : Option (List Char) :=
  (encodeValue short p.2).map (fun v => encodeString short p.1 ++ ':' :: v)

def encodeMembers (short : Bool) : logEntry → Option (List Char)
  | [] => some []
  | [p] => encodeMember short p
  | p :: q :: rest =>
    match encodeMember short p, encodeMembers short (q :: rest) with
    | some a, some b => some (a ++ ',' :: b)
    | _, _ => none

/-- The order of strings by their code points, which is the order of their
bytes. -/
def lexLE : List Char → List Char → Bool
  | [], _ => true
  | _ :: _, [] => false
  | a :: as, b :: bs =>
    if a.toNat < b.toNat then true
    else if a.toNat = b.toNat then lexLE as bs
    else false

/-- The members of a record in the order in which `json.Marshal` writes them:
sorted by key. -/
def sortKeys (entry : logEntry) : logEntry :=
  entry.insertionSort (fun a b => lexLE a.1.data b.1.data = true)

/-- The text that `json.Marshal` writes for a record of strings and integers;
`none` for a record that holds another kind of value. -/
def encode (short : Bool) (entry : logEntry) : Option String :=
  (encodeMembers short (sortKeys entry)).map (fun b => ⟨lbrace :: (b ++ [rbrace])⟩)

def hexVal? (c : Char) : Option Nat :=
  if 48 ≤ c.toNat ∧ c.toNat ≤ 57 then some (c.toNat - 48)
  else if 97 ≤ c.toNat ∧ c.toNat ≤ 102 then some (c.toNat - 87)
  else if 65 ≤ c.toNat ∧ c.toNat ≤ 70 then some (c.toNat - 55)
  else none

/-- The character that a two-character escape of JSON stands for. -/
def unescape? (e : Char) : Option Char :=
  if e = quote then some quote
  else if e = backslash then some backslash
  else if e = '/' then some '/'
  else if e = 'b' then some (Char.ofNat 8)
  else if e = 'f' then some (Char.ofNat 12)
  else if e = 'n' then some (Char.ofNat 10)
  else if e = 'r' then some (Char.ofNat 13)
  else if e = 't' then some (Char.ofNat 9)
  else none

/-- Read a string after its opening quote, up to and including the closing
quote: the characters of the string and the rest of the input. -/
def parseStringBody : List Char → Option (List Char × List Char)
  | [] => none
  | c :: rest =>
    if c = quote then some ([], rest)
    else if c = backslash then
      match rest with
      | [] => none
      | e :: rest2 =>
        if e = 'u' then
          match rest2 with
          | a :: b :: c2 :: d :: rest3 =>
            match hexVal? a, hexVal? b, hexVal? c2, hexVal? d with
            | some x, some y, some z, some w =>
              if Nat.isValidChar (x * 4096 + y * 256 + z * 16 + w) then
                (parseStringBody rest3).map
                  (fun r => (Char.ofNat (x * 4096 + y * 256 + z * 16 + w) :: r.1, r.2))
              else none
            | _, _, _, _ => none
          | _ => none
        else
          match unescape? e with
          | some ch => (parseStringBody rest2).map (fun r => (ch :: r.1, r.2))
          | none => none
    else if c.toNat < 32 then none
    else (parseStringBody rest).map (fun r => (c :: r.1, r.2))

def digitVal? (c : Char) : Option Nat :=
  if 48 ≤ c.toNat ∧ c.toNat ≤ 57 then some (c.toNat - 48) else none

/-- Read decimal digits as long as there are some. -/
def parseDigits : List Char → Nat → Nat × List Char
  | [], acc => (acc, [])
  | c :: rest, acc =>
    match digitVal? c with
    | some d => parseDigits rest (acc * 10 + d)
    | none => (acc, c :: rest)

/-- Read an integer: an optional minus sign and at least one digit. -/
def parseInt : List Char → Option (Int × List Char)
  | [] => none
  | c :: rest =>
    if c = '-' then
      match rest with
      | [] => none
      | d :: _ =>
        if (digitVal? d).isSome then
          some (-((parseDigits rest 0).1 : Int), (parseDigits rest 0).2)
        else none
    else if (digitVal? c).isSome then
      some (((parseDigits (c :: rest) 0).1 : Int), (parseDigits (c :: rest) 0).2)
    else none

/-- What the rest of the input must be like for a number to end before it: it
does not start with a digit. -/
def EndsNumber (tail : List Char) : Prop :=
  ∀ c rest, tail = c :: rest → digitVal? c = none

def parseValue : List Char → Option (Any × List Char)
  | [] => none
  | c :: rest =>
    if c = quote then (parseStringBody rest).map (fun r => (Any.str ⟨r.1⟩, r.2))
    else (parseInt (c :: rest)).map (fun r => (Any.int r.1, r.2))

def parseMember : List Char → Option ((String × Any) × List Char)
  | [] => none
  | c :: rest =>
    if c = quote then
      match parseStringBody rest with
      | some (k, c2 :: rest2) =>
        if c2 = ':' then (parseValue rest2).map (fun r => ((⟨k⟩, r.1), r.2)) else none
      | _ => none
    else none

/-- Read the members of an object up to and including its closing brace;
`fuel` bounds the number of members. -/
def parseMembers : Nat → List Char → Option (logEntry × List Char)
  | 0, _ => none
  | fuel + 1, l =>
    match parseMember l with
    | some (m, c :: rest) =>
      if c = ',' then (parseMembers fuel rest).map (fun r => (m :: r.1, r.2))
      else if c = rbrace then some ([m], rest)
      else none
    | _ => none

/-- Read a whole text as one object: its members in the order of the text. -/
def parseObject (text : String) : Option logEntry :=
  match text.data with
  | [] => none
  | c :: rest =>
    if c = lbrace then
      if rest = [rbrace] then some []
      else
        match parseMembers text.length rest with
        | some (ms, []) => some ms
        | _ => none
    else none

end json

/-- A record that is a map (its keys are distinct) of strings and integers. -/
def PlainMap (e : logEntry) : Prop :=
  (e.map Prod.fst).Nodup ∧ ∀ p ∈ e, json.Plain p.2 = true

/-- The runtime's `json.Marshal` is that of the library on records of strings
and integers: it returns the text `json.encode` and no error. -/
def Runtime.StdJson (rt : Runtime) (short : Bool) : Prop :=
  ∀ (entry : logEntry) (out : String),
    json.encode short entry = some out → rt.jsonMarshal entry = (out, none)

/-- The number of bytes of a string value. -/
def Any.byteLength? : Any → Option Nat
  | .str t => some t.utf8ByteSize
  | .rawStr bytes => some bytes.length
  | _ => none

/-- A runtime with the library's `json.Marshal` on records of strings and
integers. -/
def Runtime.std : Runtime :=
  { Runtime.sample with
    jsonMarshal := fun entry =>
      match json.encode true entry with
      | some out => (out, none)
      | none => ("", some (errorsNew "json: unsupported type")) }

end Logx

namespace Logx

/-! ## Theorems -/

theorem since_self (s : Sys) : s.since s = [] := by
  simp [Sys.since]

theorem since_append (s t : Sys) (evs : List Event) (h : t.trace = s.trace ++ evs) :
    t.since s = evs := by
  simp [Sys.since, h]

theorem getWriter_trace (s : Sys) : (getWriter s).2.trace = s.trace := by
  unfold getWriter atomicWriter.Load atomicWriter.StoreIfNil
  cases h : s.writer <;> simp [h]

theorem getWriter_writer (s : Sys) : (getWriter s).2.writer = some (getWriter s).1 := by
  unfold getWriter atomicWriter.Load atomicWriter.StoreIfNil
  cases h : s.writer <;> simp [h]

theorem getWriter_emit (s : Sys) (e : Event) : (getWriter (s.emit e)).1 = (getWriter s).1 := by
  unfold getWriter atomicWriter.Load atomicWriter.StoreIfNil Sys.emit
  cases h : s.writer <;> simp [h]

theorem getWriter_of_empty (s : Sys) (h : s.writer = none) :
    (getWriter s).1 = newConsoleWriter := by
  unfold getWriter atomicWriter.Load atomicWriter.StoreIfNil
  simp [h]

theorem formatEntry_trace (rt : Runtime) (level : String) (val : Any)
    (fields : List LogField) (s : Sys) :
    ∃ evs, (formatEntry rt level val fields s).2.trace = s.trace ++ evs ∧
      (∀ e ∈ evs, e.isWrite = false) ∧
      (formatEntry rt level val fields s).2.writer = s.writer := by
  unfold formatEntry
  simp only []
  split
  · rename_i err _
    refine ⟨[Event.record (buildEntry rt level val fields s),
      Event.stdlog ("Failed to format log entry: " ++ rt.fmtV (.obj err.val))], ?_, ?_, ?_⟩
    · simp [Sys.emit]
    · simp [Event.isWrite]
    · simp [Sys.emit]
  · refine ⟨[Event.record (buildEntry rt level val fields s)], ?_, ?_, ?_⟩
    · simp [Sys.emit]
    · simp [Event.isWrite]
    · simp [Sys.emit]

theorem countP_isWrite_zero (evs : List Event) (h : ∀ e ∈ evs, e.isWrite = false) :
    evs.countP Event.isWrite = 0 := by
  rw [List.countP_eq_zero]
  intro e he
  simp [h e he]

theorem writesOnce_formatted (rt : Runtime) (level : String) (ch : Channel) (val : Any)
    (fields extra : List LogField) :
    WritesOnce ch (fun s =>
      (getWriter s).1.call ch (formatEntry rt level val fields (getWriter s).2).1 extra
        (formatEntry rt level val fields (getWriter s).2).2) := by
  intro s
  obtain ⟨evs, h1, h2, h3⟩ := formatEntry_trace rt level val fields (getWriter s).2
  refine ⟨evs ++ [Event.write (getWriter s).1 ch
    (formatEntry rt level val fields (getWriter s).2).1 extra], ?_, ?_, ?_, ?_⟩
  · simp [Writer.call, Sys.emit, h1, getWriter_trace]
  · simp [List.countP_append, countP_isWrite_zero evs h2, Event.isWrite]
  · intro e he hw
    rcases List.mem_append.mp he with h | h
    · simp [h2 e h] at hw
    · simp at h
      subst h
      simp [Event.writer?, Event.channel?]
  · simp [Writer.call, Sys.emit, h3, getWriter_writer]

theorem writesOnce_plain (ch : Channel) (v : String) (extra : List LogField) :
    WritesOnce ch (fun s => (getWriter s).1.call ch v extra (getWriter s).2) := by
  intro s
  refine ⟨[Event.write (getWriter s).1 ch v extra], ?_, ?_, ?_, ?_⟩
  · simp [Writer.call, Sys.emit, getWriter_trace]
  · simp [Event.isWrite]
  · intro e he _
    simp at he
    subst he
    simp [Event.writer?, Event.channel?]
  · simp [Writer.call, Sys.emit, getWriter_writer]

theorem writeDebug_once (rt : Runtime) (val : Any) (fields : List LogField) :
    WritesOnce .Debug (writeDebug rt val fields) :=
  writesOnce_formatted rt "debug" .Debug val fields _

theorem writeError_once (rt : Runtime) (val : Any) (fields : List LogField) :
    WritesOnce .Error (writeError rt val fields) :=
  writesOnce_formatted rt "error" .Error val fields _

theorem writeInfo_once (rt : Runtime) (val : Any) (fields : List LogField) :
    WritesOnce .Info (writeInfo rt val fields) :=
  writesOnce_formatted rt "info" .Info val fields _

theorem writeSlow_once (rt : Runtime) (val : Any) (fields : List LogField) :
    WritesOnce .Slow (writeSlow rt val fields) :=
  writesOnce_formatted rt "slow" .Slow val fields _

theorem writeSevere_once (rt : Runtime) (msg : String) :
    WritesOnce .Severe (writeSevere rt msg) :=
  writesOnce_plain .Severe _ _

theorem writeStack_once (rt : Runtime) (msg : String) :
    WritesOnce .Stack (writeStack rt msg) :=
  writesOnce_plain .Stack _ _

theorem writeStat_once (rt : Runtime) (msg : String) :
    WritesOnce .Stat (writeStat rt msg) :=
  writesOnce_plain .Stat _ _

theorem alert_once (v : String) : WritesOnce .Alert (Alert v) :=
  writesOnce_plain .Alert _ _

theorem writesOnce_after_callback (ch : Channel) (f : Sys → Sys) (h : WritesOnce ch f) :
    WritesOnce ch (fun s => f (s.emit .callback)) := by
  intro s
  obtain ⟨evs, h1, h2, h3, h4⟩ := h (s.emit .callback)
  rw [getWriter_emit] at h3 h4
  refine ⟨Event.callback :: evs, ?_, ?_, ?_, h4⟩
  · rw [h1]; simp [Sys.emit]
  · simp [List.countP_cons, h2, Event.isWrite]
  · intro e he hw
    rcases List.mem_cons.mp he with h | h
    · subst h; simp [Event.isWrite] at hw
    · exact h3 e h hw

theorem writesOnce_since (ch : Channel) (f : Sys → Sys) (h : WritesOnce ch f) (s : Sys) :
    ((f s).since s).countP Event.isWrite = 1 ∧
    (∀ e ∈ (f s).since s, e.isWrite = true →
      e.writer? = some (getWriter s).1 ∧ e.channel? = some ch) ∧
    (f s).writer = some (getWriter s).1 := by
  obtain ⟨evs, h1, h2, h3, h4⟩ := h s
  rw [since_append s (f s) evs h1]
  exact ⟨h2, h3, h4⟩

theorem run_of_not_gate (rt : Runtime) (c : EntryPoint) (s : Sys) (h : c.gate s = false) :
    c.run rt s = s := by
  cases c <;>
    simp [EntryPoint.gate, EntryPoint.gateLevel, EntryPoint.needsStat] at h <;>
    simp [EntryPoint.run, Logx.Debug, Debugf, Debugfn, Debugv, Debugw, Logx.Error, Errorf,
      Errorfn, ErrorStack, ErrorStackf, Errorv, Errorw, Info, Infof, Infofn, Infov, Infow,
      Severe, Severef, Slow, Slowf, Slowfn, Slowv, Sloww, Stat, Statf, shallLog,
      shallLogStat, h] <;>
    omega

theorem run_of_gate (rt : Runtime) (c : EntryPoint) (s : Sys) (h : c.gate s = true) :
    ∃ f, WritesOnce c.channel f ∧ c.run rt s = f s := by
  cases c <;>
    simp [EntryPoint.gate, EntryPoint.gateLevel, EntryPoint.needsStat] at h
  case Debug v =>
    exact ⟨writeDebug rt (.str (rt.Sprint v)) [], writeDebug_once rt _ _,
      by simp [EntryPoint.run, Logx.Debug, shallLog, shallLogStat, h]⟩
  case Debugf format v =>
    exact ⟨writeDebug rt (.str (rt.Sprintf format v)) [], writeDebug_once rt _ _,
      by simp [EntryPoint.run, Debugf, shallLog, shallLogStat, h]⟩
  case Debugfn fn =>
    exact ⟨fun s => writeDebug rt (fn ()) [] (s.emit .callback), writesOnce_after_callback _ _ (writeDebug_once rt _ _),
      by simp [EntryPoint.run, Debugfn, shallLog, shallLogStat, h]⟩
  case Debugv v =>
    exact ⟨writeDebug rt v [], writeDebug_once rt _ _,
      by simp [EntryPoint.run, Debugv, shallLog, shallLogStat, h]⟩
  case Debugw msg fields =>
    exact ⟨writeDebug rt (.str msg) fields, writeDebug_once rt _ _,
      by simp [EntryPoint.run, Debugw, shallLog, shallLogStat, h]⟩
  case Error v =>
    exact ⟨writeError rt (.str (rt.Sprint v)) [], writeError_once rt _ _,
      by simp [EntryPoint.run, Logx.Error, shallLog, shallLogStat, h]⟩
  case Errorf format v =>
    exact ⟨writeError rt (.str (rt.Errorf format v)) [], writeError_once rt _ _,
      by simp [EntryPoint.run, Errorf, shallLog, shallLogStat, h]⟩
  case Errorfn fn =>
    exact ⟨fun s => writeError rt (fn ()) [] (s.emit .callback), writesOnce_after_callback _ _ (writeError_once rt _ _),
      by simp [EntryPoint.run, Errorfn, shallLog, shallLogStat, h]⟩
  case Errorv v =>
    exact ⟨writeError rt v [], writeError_once rt _ _,
      by simp [EntryPoint.run, Errorv, shallLog, shallLogStat, h]⟩
  case Errorw msg fields =>
    exact ⟨writeError rt (.str msg) fields, writeError_once rt _ _,
      by simp [EntryPoint.run, Errorw, shallLog, shallLogStat, h]⟩
  case Info v =>
    exact ⟨writeInfo rt (.str (rt.Sprint v)) [], writeInfo_once rt _ _,
      by simp [EntryPoint.run, Info, shallLog, shallLogStat, h]⟩
  case Infof format v =>
    exact ⟨writeInfo rt (.str (rt.Sprintf format v)) [], writeInfo_once rt _ _,
      by simp [EntryPoint.run, Infof, shallLog, shallLogStat, h]⟩
  case Infofn fn =>
    exact ⟨fun s => writeInfo rt (fn ()) [] (s.emit .callback), writesOnce_after_callback _ _ (writeInfo_once rt _ _),
      by simp [EntryPoint.run, Infofn, shallLog, shallLogStat, h]⟩
  case Infov v =>
    exact ⟨writeInfo rt v [], writeInfo_once rt _ _,
      by simp [EntryPoint.run, Infov, shallLog, shallLogStat, h]⟩
  case Infow msg fields =>
    exact ⟨writeInfo rt (.str msg) fields, writeInfo_once rt _ _,
      by simp [EntryPoint.run, Infow, shallLog, shallLogStat, h]⟩
  case Slow v =>
    exact ⟨writeSlow rt (.str (rt.Sprint v)) [], writeSlow_once rt _ _,
      by simp [EntryPoint.run, Slow, shallLog, shallLogStat, h]⟩
  case Slowf format v =>
    exact ⟨writeSlow rt (.str (rt.Sprintf format v)) [], writeSlow_once rt _ _,
      by simp [EntryPoint.run, Slowf, shallLog, shallLogStat, h]⟩
  case Slowfn fn =>
    exact ⟨fun s => writeSlow rt (fn ()) [] (s.emit .callback), writesOnce_after_callback _ _ (writeSlow_once rt _ _),
      by simp [EntryPoint.run, Slowfn, shallLog, shallLogStat, h]⟩
  case Slowv v =>
    exact ⟨writeSlow rt v [], writeSlow_once rt _ _,
      by simp [EntryPoint.run, Slowv, shallLog, shallLogStat, h]⟩
  case Sloww msg fields =>
    exact ⟨writeSlow rt (.str msg) fields, writeSlow_once rt _ _,
      by simp [EntryPoint.run, Sloww, shallLog, shallLogStat, h]⟩
  case ErrorStack v =>
    exact ⟨writeStack rt (rt.Sprint v), writeStack_once rt _,
      by simp [EntryPoint.run, ErrorStack, shallLog, shallLogStat, h]⟩
  case ErrorStackf format v =>
    exact ⟨writeStack rt (rt.Sprintf format v), writeStack_once rt _,
      by simp [EntryPoint.run, ErrorStackf, shallLog, shallLogStat, h]⟩
  case Severe v =>
    exact ⟨writeSevere rt (rt.Sprint v), writeSevere_once rt _,
      by simp [EntryPoint.run, Severe, shallLog, shallLogStat, h]⟩
  case Severef format v =>
    exact ⟨writeSevere rt (rt.Sprintf format v), writeSevere_once rt _,
      by simp [EntryPoint.run, Severef, shallLog, shallLogStat, h]⟩
  case Stat v =>
    exact ⟨writeStat rt (rt.Sprint v), writeStat_once rt _,
      by simp [EntryPoint.run, Stat, shallLog, shallLogStat, h]⟩
  case Statf format v =>
    exact ⟨writeStat rt (rt.Sprintf format v), writeStat_once rt _,
      by simp [EntryPoint.run, Statf, shallLog, shallLogStat, h]⟩

/-- C1 (level gate).  `shallLog l` holds exactly when the stored threshold is at
most `l`.  Every level-gated entry point calls a writer method if and only if
its gate passes (threshold at most Debug for the Debug family, Info for the
Info family, Error for the Error, ErrorStack and Slow families, Severe for the
Severe family; Stat and Statf need the stat flag and threshold at most Info),
and then it calls exactly one.  When the gate fails the entry point leaves the
whole state unchanged and nothing happens: no writer method is called, no
record is built, no callback is invoked. -/
theorem level_gate (rt : Runtime) (s : Sys) (c : EntryPoint) :
    (∀ l : Nat, shallLog l s = true ↔ s.logLevel ≤ l) ∧
    (((c.run rt s).since s).any Event.isWrite = true ↔ c.gate s = true) ∧
    (c.gate s = true → ((c.run rt s).since s).countP Event.isWrite = 1) ∧
    (c.gate s = false → c.run rt s = s ∧ (c.run rt s).since s = []) := by
  have hpass : c.gate s = true → ((c.run rt s).since s).countP Event.isWrite = 1 := by
    intro h
    obtain ⟨f, hf, hrun⟩ := run_of_gate rt c s h
    rw [hrun]
    exact (writesOnce_since _ f hf s).1
  have hfail : c.gate s = false → c.run rt s = s ∧ (c.run rt s).since s = [] := by
    intro h
    have hrun := run_of_not_gate rt c s h
    exact ⟨hrun, by rw [hrun]; exact since_self s⟩
  refine ⟨fun l => by simp [shallLog], ?_, hpass, hfail⟩
  cases hg : c.gate s
  · simp [(hfail hg).2]
  · have h1 := hpass hg
    have hpos : 0 < ((c.run rt s).since s).countP Event.isWrite := by omega
    obtain ⟨e, he, hw⟩ := List.countP_pos_iff.mp hpos
    simp only [List.any_eq_true, iff_true]
    exact ⟨e, he, hw⟩

/-- C2, the claim as stated fails.  After `Disable()` the no-op writer is the
active writer, yet `AddWriter(w)` does not leave a fan-out combinator over the
no-op writer and `w` in the slot: `Reset` empties the slot and the guarded
`SetWriter` stores nothing while the threshold is the disable level. -/
theorem addWriter_after_disable_drops :
    (Disable Sys.start).writer = some nopWriter ∧
    (AddWriter (.user 1) (Disable Sys.start)).writer = none ∧
    (AddWriter (.user 1) (Disable Sys.start)).writer ≠
      some (comboWriter [nopWriter, .user 1]) := by
  refine ⟨rfl, rfl, ?_⟩
  simp [AddWriter, Reset, atomicWriter.Swap, SetWriter, Disable, atomicWriter.Store]

/-- C2, amended.  In every state whose threshold is not the disable level:
when a writer `ow` is active, after `AddWriter(w)` the active writer is the
fan-out combinator whose ordered writer list is exactly `[ow, w]`; when no
writer is active, after `AddWriter(w)` the active writer is `w` itself.
Nothing but the writer slot changes. -/
theorem addWriter_keeps (w : Writer) (s : Sys) (h : s.logLevel ≠ disableLevel) :
    (∀ ow, s.writer = some ow → (AddWriter w s).writer = some (comboWriter [ow, w])) ∧
    (s.writer = none → (AddWriter w s).writer = some w) ∧
    (AddWriter w s).logLevel = s.logLevel ∧ (AddWriter w s).trace = s.trace := by
  refine ⟨?_, ?_, ?_, ?_⟩
  · intro ow how
    simp [AddWriter, Reset, atomicWriter.Swap, SetWriter, atomicWriter.Store, how, h]
  · intro hnone
    simp [AddWriter, Reset, atomicWriter.Swap, SetWriter, atomicWriter.Store, hnone, h]
  · cases hw : s.writer <;>
      simp [AddWriter, Reset, atomicWriter.Swap, SetWriter, atomicWriter.Store, hw, h]
  · cases hw : s.writer <;>
      simp [AddWriter, Reset, atomicWriter.Swap, SetWriter, atomicWriter.Store, hw, h]

/-- The amended C2 at a state with an application writer active and threshold
Info: the console writer is added behind it. -/
theorem addWriter_keeps_witness :
    Sys.sample.logLevel ≠ disableLevel ∧
    (AddWriter .console Sys.sample).writer = some (comboWriter [.user 1, .console]) :=
  ⟨by decide, (addWriter_keeps .console Sys.sample (by decide)).1 (.user 1) rfl⟩

theorem setWriter_disabled (w : Writer) (t : Sys) (h : t.logLevel = disableLevel) :
    SetWriter w t = t := by
  simp [SetWriter, h]

theorem setWriters_disabled (ws : List Writer) (t : Sys) (h : t.logLevel = disableLevel) :
    ws.foldl (fun st w => SetWriter w st) t = t := by
  induction ws with
  | nil => rfl
  | cons w ws ih => simp [List.foldl_cons, setWriter_disabled w t h, ih]

/-- C3 (Disable).  After `Disable()` the threshold is the disable level, which
lies above every real level, so `shallLog` is false for debug, info, error and
severe; the active writer is the no-op writer; any run of `SetWriter` calls
made while the threshold is still the disable level leaves the state, and so
the no-op writer in the slot, unchanged.  In a state whose threshold is not the
disable level, `SetWriter(w)` makes `w` the active writer. -/
theorem disable_permanent (s t : Sys) (w : Writer) (ws : List Writer) :
    (Disable s).logLevel = disableLevel ∧
    (DebugLevel < disableLevel ∧ InfoLevel < disableLevel ∧
      ErrorLevel < disableLevel ∧ SevereLevel < disableLevel) ∧
    (shallLog DebugLevel (Disable s) = false ∧ shallLog InfoLevel (Disable s) = false ∧
      shallLog ErrorLevel (Disable s) = false ∧ shallLog SevereLevel (Disable s) = false) ∧
    (Disable s).writer = some nopWriter ∧
    ws.foldl (fun st w => SetWriter w st) (Disable s) = Disable s ∧
    (t.logLevel = disableLevel → SetWriter w t = t) ∧
    (t.logLevel ≠ disableLevel → (SetWriter w t).writer = some w) := by
  have hlevel : (Disable s).logLevel = disableLevel := rfl
  refine ⟨hlevel, by decide, ?_, rfl, setWriters_disabled ws _ hlevel,
    setWriter_disabled w t, ?_⟩
  · simp [shallLog, hlevel, disableLevel, DebugLevel, InfoLevel, ErrorLevel, SevereLevel]
  · intro h
    simp [SetWriter, h, atomicWriter.Store]

/-- C4, the claim as stated fails.  With a writer of the application active and
threshold Info, `Reset()` empties the slot and `Info("ready")` right after it
passes the gate; but the call is not dropped: `getWriter` finds the slot empty,
stores a console writer in it, and the console writer receives the record. -/
theorem info_after_reset_reaches_console :
    (Reset Sys.sample).1 = some (.user 1) ∧
    (Reset Sys.sample).2.writer = none ∧
    shallLog InfoLevel (Reset Sys.sample).2 = true ∧
    (Info Runtime.sample [.str "ready"] (Reset Sys.sample).2).writer = some .console ∧
    ((Info Runtime.sample [.str "ready"] (Reset Sys.sample).2).since (Reset Sys.sample).2).any
      (fun e => e.isWrite && decide (e.channel? = some .Info)) = true ∧
    (Alert "ready" (Reset Sys.sample).2).writer = some .console := by
  refine ⟨rfl, rfl, by decide, rfl, ?_, rfl⟩
  decide

/-- C4, amended.  `Reset()` returns the previously active writer and leaves the
writer slot empty.  A log call issued right after it is not dropped: every
level-gated entry point whose gate passes, and `Alert` always, stores a fresh
console writer in the empty slot and calls exactly one writer method, on that
console writer; the slot holds the console writer after the call. -/
theorem log_after_reset_goes_to_console (rt : Runtime) (s : Sys) (c : EntryPoint)
    (v : String) :
    (Reset s).1 = s.writer ∧
    (Reset s).2.writer = none ∧
    (c.gate (Reset s).2 = true →
      (c.run rt (Reset s).2).writer = some newConsoleWriter ∧
      ((c.run rt (Reset s).2).since (Reset s).2).countP Event.isWrite = 1 ∧
      ∀ e ∈ (c.run rt (Reset s).2).since (Reset s).2, e.isWrite = true →
        e.writer? = some newConsoleWriter) ∧
    (Alert v (Reset s).2).writer = some newConsoleWriter ∧
    (Alert v (Reset s).2).since (Reset s).2 = [Event.write newConsoleWriter .Alert v []] := by
  have hempty : (Reset s).2.writer = none := rfl
  have hcons := getWriter_of_empty (Reset s).2 hempty
  refine ⟨rfl, hempty, ?_, ?_, ?_⟩
  · intro hg
    obtain ⟨f, hf, hrun⟩ := run_of_gate rt c (Reset s).2 hg
    obtain ⟨h1, h2, h3⟩ := writesOnce_since _ f hf (Reset s).2
    rw [hcons] at h2 h3
    rw [hrun]
    exact ⟨h3, h1, fun e he hw => (h2 e he hw).1⟩
  · have h := (writesOnce_since _ _ (alert_once v) (Reset s).2).2.2
    rw [hcons] at h
    exact h
  · apply since_append
    simp [Alert, Writer.call, Sys.emit, getWriter, atomicWriter.Load,
      atomicWriter.StoreIfNil, hempty]

/-- C5 (Close).  With a writer `w` active, `Close()` empties the slot, calls the
`Close` of `w` exactly once and nothing else, and returns exactly what that call
returned.  With an empty slot it returns nil and does nothing.  In both cases
the threshold, the stat flag and the formatter are as before, and a second
`Close()` right after the first closes nothing and returns nil. -/
theorem close_once (rt : Runtime) (s : Sys) :
    (∀ w, s.writer = some w →
      (Close rt s).1.writer = none ∧
      (Close rt s).1.since s = [Event.close w] ∧
      (Close rt s).2 = rt.closeWriter w) ∧
    (s.writer = none → Close rt s = (s, none)) ∧
    ((Close rt s).1.logLevel = s.logLevel ∧
      (Close rt s).1.disableStat = s.disableStat ∧
      (Close rt s).1.formatter = s.formatter) ∧
    Close rt (Close rt s).1 = ((Close rt s).1, none) := by
  cases hw : s.writer with
  | none =>
    have h : Close rt s = (s, none) := by
      simp [Close, atomicWriter.Swap, hw]
      cases s
      simp_all
    refine ⟨fun w hcontra => by simp at hcontra, fun _ => h, by simp [h], ?_⟩
    rw [h]
    exact h
  | some w =>
    refine ⟨?_, fun hcontra => by simp at hcontra, ?_, ?_⟩
    · intro w1 hw1
      simp at hw1
      subst hw1
      refine ⟨?_, ?_, ?_⟩
      · simp [Close, atomicWriter.Swap, hw, Sys.emit]
      · apply since_append
        simp [Close, atomicWriter.Swap, hw, Sys.emit]
      · simp [Close, atomicWriter.Swap, hw]
    · simp [Close, atomicWriter.Swap, hw, Sys.emit]
    · simp [Close, atomicWriter.Swap, hw, Sys.emit]

/-- C6 (SetUp is one-time).  Whatever the first configuration and whatever the
first call returned, once a `SetUp(c1)` has returned the latch is set, and a
later `SetUp(c2)` returns nil and leaves the whole state (threshold, stat flag,
time format, max content length, writer slot, and all the rest) as it was. -/
theorem setUp_once (rt : Runtime) (c1 c2 : LogConf) (s : Sys) :
    (SetUp rt c1 s).2.setupOnce = true ∧
    SetUp rt c2 (SetUp rt c1 s).2 = (none, (SetUp rt c1 s).2) := by
  have h : (SetUp rt c1 s).2.setupOnce = true := by
    unfold SetUp
    cases hs : s.setupOnce <;> simp [hs]
  refine ⟨h, ?_⟩
  generalize SetUp rt c1 s = r at h
  simp [SetUp, h]

/-- C7 (configuration errors).  For every option set, `createOutput("")` returns
the "log path not set" sentinel and no output.  For every configuration in
volume mode with an empty service name, the first `SetUp` returns the "service
name not set" sentinel, a different error, and the writer slot after the call
is what it was before it: no writer is installed. -/
theorem config_errors (rt : Runtime) (s t : Sys) (c : LogConf)
    (hmode : c.Mode = volumeMode) (hname : c.ServiceName = "") (hfirst : s.setupOnce = false) :
    createOutput rt "" t = (none, some ErrLogPathNotSet) ∧
    (SetUp rt c s).1 = some ErrLogServiceNameNotSet ∧
    (SetUp rt c s).2.writer = s.writer ∧
    ErrLogPathNotSet ≠ ErrLogServiceNameNotSet := by
  have hvol : volumeMode ≠ fileMode := by decide
  have hlen : len "" = 0 := by decide
  have hkeep : ∀ u : Sys, (setupLogLevel c u).writer = u.writer := by
    intro u
    unfold setupLogLevel SetLevel
    split_ifs <;> rfl
  refine ⟨by simp [createOutput, hlen], ?_, ?_, by decide⟩
  · simp [SetUp, hfirst, setUpBody, hmode, hvol, setupWithVolume, hname, hlen]
  · simp only [SetUp, hfirst, setUpBody, hmode, hvol, setupWithVolume, hname, hlen]
    simp only [DisableStat]
    split_ifs <;> simp [hkeep]

/-- C7 at the start state, for a volume-mode configuration without a service
name. -/
theorem config_errors_witness :
    (⟨"", volumeMode, "", "", "/var/log", "info", 0, true⟩ : LogConf).Mode = volumeMode ∧
    Sys.start.setupOnce = false ∧
    (SetUp Runtime.sample ⟨"", volumeMode, "", "", "/var/log", "info", 0, true⟩ Sys.start).1 =
      some ErrLogServiceNameNotSet :=
  ⟨rfl, rfl, (config_errors Runtime.sample Sys.start Sys.start
    ⟨"", volumeMode, "", "", "/var/log", "info", 0, true⟩ rfl rfl rfl).2.1⟩

/-- C8, amended.  `Must(nil)` returns normally and leaves the whole state
unchanged, so no writer method is called.  For a non-nil error whose `Error()`
returns, with the message `text`, in every state (the threshold is not consulted), `Must` writes
the message `text`, a blank line and the stack trace to the standard logger,
calls the `Severe` method of the active writer (the writer `getWriter` yields)
exactly once with that message and calls no other writer method, and then does
not return: the process exits with status 1 when `ExitOnFatal` is true, and
otherwise `Must` panics with the message. -/
theorem must_spec (rt : Runtime) (s : Sys) (e : ErrorValue) (text : String)
    (h : GoError.Error (some e) = .ret text) :
    Must rt none s = (.returns, s) ∧
    (Must rt (some e) s).2.since s =
      [Event.stdlog (text ++ "\n\n" ++ rt.Stack),
        Event.write (getWriter s).1 .Severe (text ++ "\n\n" ++ rt.Stack) []] ∧
    (Must rt (some e) s).1 ≠ .returns ∧
    (s.ExitOnFatal = true → (Must rt (some e) s).1 = .exits 1) ∧
    (s.ExitOnFatal = false →
      (Must rt (some e) s).1 = .panics ⟨text ++ "\n\n" ++ rt.Stack⟩) := by
  refine ⟨rfl, ?_, ?_, ?_, ?_⟩
  · cases hw : s.writer <;> cases hx : s.ExitOnFatal <;>
      simp [Must, h, getWriter, atomicWriter.Load, atomicWriter.StoreIfNil, Writer.call,
        Sys.emit, Sys.since, hw, hx]
  · cases hw : s.writer <;> cases hx : s.ExitOnFatal <;>
      simp [Must, h, getWriter, atomicWriter.Load, atomicWriter.StoreIfNil, Writer.call,
        Sys.emit, hw, hx]
  · intro hx
    cases hw : s.writer <;>
      simp [Must, h, getWriter, atomicWriter.Load, atomicWriter.StoreIfNil, Writer.call,
        Sys.emit, hw, hx]
  · intro hx
    cases hw : s.writer <;>
      simp [Must, h, getWriter, atomicWriter.Load, atomicWriter.StoreIfNil, Writer.call,
        Sys.emit, hw, hx]

/-- C8, amended, at a state with an application writer active, for the error
`boom`. -/
theorem must_spec_witness :
    GoError.Error (some (errorsNew "boom")) = .ret "boom" ∧
    (Must Runtime.sample (some (errorsNew "boom")) Sys.sample).1 = .exits 1 ∧
    (Must Runtime.sample (some (errorsNew "boom")) Sys.sample).2.since Sys.sample =
      [Event.stdlog ("boom" ++ "\n\n" ++ "stack"),
        Event.write (.user 1) .Severe ("boom" ++ "\n\n" ++ "stack") []] :=
  ⟨rfl, (must_spec Runtime.sample Sys.sample (errorsNew "boom") "boom" rfl).2.2.2.1 rfl,
    (must_spec Runtime.sample Sys.sample (errorsNew "boom") "boom" rfl).2.1⟩

theorem encodeWithRecover_ret (arg : Any) (fn : Unit → Outcome) (r : String)
    (h : fn () = .ret r) : encodeWithRecover arg fn = r := by
  simp [encodeWithRecover, h]

theorem encodeWithRecover_panics (arg : Any) (fn : Unit → Outcome) (v : PanicValue)
    (h : fn () = .panics v) :
    encodeWithRecover arg fn =
      if arg.isNilPtr = true then nilAngleString else "panic: " ++ v.text := by
  simp [encodeWithRecover, h]

theorem field_of_error (rt : Runtime) (key : String) (o : Obj) (m : Outcome)
    (h : o.errorM = some m) :
    Field rt key (.obj o) = ⟨key, .str (encodeWithRecover (.obj o) (fun _ => m))⟩ := by
  obtain ⟨np, em, sm⟩ := o
  simp only at h
  subst h
  simp [Field, Any.asError, encodeError, GoError.toAny, GoError.Error]

theorem field_of_stringer (rt : Runtime) (key : String) (o : Obj) (m : Outcome)
    (he : o.errorM = none) (h : o.stringM = some m) :
    Field rt key (.obj o) = ⟨key, .str (encodeWithRecover (.obj o) (fun _ => m))⟩ := by
  obtain ⟨np, em, sm⟩ := o
  simp only at h he
  subst h he
  simp [Field, Any.asError, Any.asStringer, encodeStringer, GoStringer.toAny,
    GoStringer.String]

/-- C9 (encoder safety).  `encodeWithRecover(arg, fn)` is total: it yields a
string whatever `fn` does.  If `fn` returns `r` the result is `r`; if `fn`
panics with value `v`, the result is the nil sentinel when `arg` is a nil
pointer and `panic: ` followed by the rendering of `v` otherwise.  Hence
`Field(key, v)` yields a string value for an error or a stringer whose method
panics (the same two sentinels), and a list of strings, one per element, for a
list of errors and for a list of stringers, also when elements are nil or
their methods panic. -/
theorem encoder_safety (rt : Runtime) (key : String) (arg : Any) (fn : Unit → Outcome) :
    (∀ r, fn () = .ret r → encodeWithRecover arg fn = r) ∧
    (∀ v, fn () = .panics v → arg.isNilPtr = true →
      encodeWithRecover arg fn = nilAngleString) ∧
    (∀ v, fn () = .panics v → arg.isNilPtr = false →
      encodeWithRecover arg fn = "panic: " ++ v.text) ∧
    (∀ (o : Obj) (v : PanicValue), o.errorM = some (.panics v) →
      (Field rt key (.obj o)).Value =
        .str (if o.nilPtr = true then nilAngleString else "panic: " ++ v.text)) ∧
    (∀ (o : Obj) (v : PanicValue), o.errorM = none → o.stringM = some (.panics v) →
      (Field rt key (.obj o)).Value =
        .str (if o.nilPtr = true then nilAngleString else "panic: " ++ v.text)) ∧
    (∀ es : List GoError, ∃ ss : List String,
      (Field rt key (.errors es)).Value = .strs ss ∧ ss.length = es.length ∧
      ∀ (i : Nat) (e : GoError) (v : PanicValue), es[i]? = some e →
        GoError.Error e = .panics v →
        ss[i]? = some (if (GoError.toAny e).isNilPtr = true then nilAngleString
          else "panic: " ++ v.text)) ∧
    (∀ vs : List GoStringer, ∃ ss : List String,
      (Field rt key (.stringers vs)).Value = .strs ss ∧ ss.length = vs.length ∧
      ∀ (i : Nat) (e : GoStringer) (v : PanicValue), vs[i]? = some e →
        GoStringer.String e = .panics v →
        ss[i]? = some (if (GoStringer.toAny e).isNilPtr = true then nilAngleString
          else "panic: " ++ v.text)) := by
  refine ⟨fun r h => encodeWithRecover_ret arg fn r h, ?_, ?_, ?_, ?_, ?_, ?_⟩
  · intro v h hn
    simp [encodeWithRecover_panics arg fn v h, hn]
  · intro v h hn
    simp [encodeWithRecover_panics arg fn v h, hn]
  · intro o v h
    rw [field_of_error rt key o _ h, encodeWithRecover_panics _ _ v rfl]
    rfl
  · intro o v he h
    rw [field_of_stringer rt key o _ he h, encodeWithRecover_panics _ _ v rfl]
    rfl
  · intro es
    refine ⟨es.map encodeError, by simp [Field, Any.asError], by simp, ?_⟩
    intro i e v hi hv
    simp only [List.getElem?_map, hi, Option.map_some', encodeError]
    rw [encodeWithRecover_panics _ (fun _ => GoError.Error e) v hv]
  · intro vs
    refine ⟨vs.map encodeStringer, by simp [Field, Any.asError, Any.asStringer], by simp, ?_⟩
    intro i e v hi hv
    simp only [List.getElem?_map, hi, Option.map_some', encodeStringer]
    rw [encodeWithRecover_panics _ (fun _ => GoStringer.String e) v hv]

theorem field_key (rt : Runtime) (key : String) (v : Any) : (Field rt key v).Key = key := by
  cases v with
  | obj o =>
    obtain ⟨np, em, sm⟩ := o
    cases em <;> cases sm <;> simp [Field, Any.asError, Any.asStringer]
  | _ => simp [Field, Any.asError, Any.asStringer]

theorem field_unlisted (rt : Runtime) (key : String) (v : Any) (h : v.unlisted = true) :
    (Field rt key v).Value = v := by
  cases v with
  | obj o =>
    obtain ⟨np, em, sm⟩ := o
    cases em <;> cases sm <;> simp [Any.unlisted] at h
    simp [Field, Any.asError, Any.asStringer]
  | nilValue => simp [Field, Any.asError, Any.asStringer]
  | str _ => simp [Field, Any.asError, Any.asStringer]
  | rawStr _ => simp [Field, Any.asError, Any.asStringer]
  | int _ => simp [Field, Any.asError, Any.asStringer]
  | bool _ => simp [Field, Any.asError, Any.asStringer]
  | strs _ => simp [Field, Any.asError, Any.asStringer]
  | _ => simp [Any.unlisted] at h

/-- C10 (field encoding table).  `Field(key, v)` keeps the key, and its value
is: the message of `v` when `v` is an error (whether or not it is a stringer
as well: the error case comes first); for a list of errors a list of the same
length whose i-th element is the message of the i-th error; the rendering of a
duration; the element-wise rendering, same length and order, of a list of
durations and of a list of timestamps; the rendered string of a stringer that
is not an error; the element-wise rendering of a list of stringers; and `v`
itself for a value of none of these types.  A message or rendered string is
what the `Error()` or `String()` method returns. -/
theorem field_table (rt : Runtime) (key : String) :
    (∀ v : Any, (Field rt key v).Key = key) ∧
    (∀ (o : Obj) (m : String), o.errorM = some (.ret m) →
      (Field rt key (.obj o)).Value = .str m) ∧
    (∀ es : List GoError, ∃ ss : List String,
      (Field rt key (.errors es)).Value = .strs ss ∧ ss.length = es.length ∧
      ∀ (i : Nat) (e : GoError) (m : String), es[i]? = some e →
        GoError.Error e = .ret m → ss[i]? = some m) ∧
    (∀ d : Int, (Field rt key (.duration d)).Value = .str (rt.SprintDuration d)) ∧
    (∀ ds : List Int,
      (Field rt key (.durations ds)).Value = .strs (ds.map rt.SprintDuration)) ∧
    (∀ ts : List Time, (Field rt key (.times ts)).Value = .strs (ts.map rt.SprintTime)) ∧
    (∀ (o : Obj) (m : String), o.errorM = none → o.stringM = some (.ret m) →
      (Field rt key (.obj o)).Value = .str m) ∧
    (∀ vs : List GoStringer, ∃ ss : List String,
      (Field rt key (.stringers vs)).Value = .strs ss ∧ ss.length = vs.length ∧
      ∀ (i : Nat) (e : GoStringer) (m : String), vs[i]? = some e →
        GoStringer.String e = .ret m → ss[i]? = some m) ∧
    (∀ v : Any, v.unlisted = true → (Field rt key v).Value = v) := by
  refine ⟨field_key rt key, ?_, ?_, ?_, ?_, ?_, ?_, ?_, field_unlisted rt key⟩
  · intro o m h
    rw [field_of_error rt key o _ h, encodeWithRecover_ret _ _ m rfl]
  · intro es
    refine ⟨es.map encodeError, by simp [Field, Any.asError], by simp, ?_⟩
    intro i e m hi hm
    simp only [List.getElem?_map, hi, Option.map_some', encodeError]
    rw [encodeWithRecover_ret _ (fun _ => GoError.Error e) m hm]
  · intro d
    simp [Field, Any.asError]
  · intro ds
    simp [Field, Any.asError]
  · intro ts
    simp [Field, Any.asError]
  · intro o m he h
    rw [field_of_stringer rt key o _ he h, encodeWithRecover_ret _ _ m rfl]
  · intro vs
    refine ⟨vs.map encodeStringer, by simp [Field, Any.asError, Any.asStringer], by simp, ?_⟩
    intro i e m hi hm
    simp only [List.getElem?_map, hi, Option.map_some', encodeStringer]
    rw [encodeWithRecover_ret _ (fun _ => GoStringer.String e) m hm]

theorem formatEntry_ok (rt : Runtime) (level : String) (val : Any) (fields : List LogField)
    (s : Sys) (data : String)
    (h : s.formatter.Format rt (buildEntry rt level val fields s) = (data, none)) :
    formatEntry rt level val fields s =
      (data, s.emit (.record (buildEntry rt level val fields s))) := by
  have h1 : (s.emit (.record (buildEntry rt level val fields s))).formatter = s.formatter := rfl
  simp only [formatEntry, h1, h]

theorem formatEntry_err (rt : Runtime) (level : String) (val : Any) (fields : List LogField)
    (s : Sys) (data : String) (err : ErrorValue)
    (h : s.formatter.Format rt (buildEntry rt level val fields s) = (data, some err)) :
    formatEntry rt level val fields s =
      (rt.fmtV val, (s.emit (.record (buildEntry rt level val fields s))).emit
        (.stdlog ("Failed to format log entry: " ++ rt.fmtV (.obj err.val)))) := by
  have h1 : (s.emit (.record (buildEntry rt level val fields s))).formatter = s.formatter := rfl
  simp only [formatEntry, h1, h]

theorem buildEntry_congr (rt : Runtime) (level : String) (val : Any) (fields : List LogField)
    (s t : Sys) (h : s.timeFormat = t.timeFormat) :
    buildEntry rt level val fields s = buildEntry rt level val fields t := by
  simp [buildEntry, h]

theorem getWriter_keeps (s : Sys) :
    (getWriter s).2.timeFormat = s.timeFormat ∧ (getWriter s).2.formatter = s.formatter := by
  unfold getWriter atomicWriter.Load atomicWriter.StoreIfNil
  cases h : s.writer <;> simp [h]

theorem formattedEvents_emit (rt : Runtime) (level : String) (ch : Channel) (val : Any)
    (fields extra : List LogField) (s : Sys) (e : Event) :
    formattedEvents rt level ch val fields extra (s.emit e) =
      formattedEvents rt level ch val fields extra s := by
  have h1 : (s.emit e).formatter = s.formatter := rfl
  have h2 := buildEntry_congr rt level val fields (s.emit e) s rfl
  simp only [formattedEvents, h1, h2, getWriter_emit]

theorem writeFormatted_trace (rt : Runtime) (level : String) (ch : Channel) (val : Any)
    (fields extra : List LogField) (s : Sys) :
    ((getWriter s).1.call ch (formatEntry rt level val fields (getWriter s).2).1 extra
        (formatEntry rt level val fields (getWriter s).2).2).trace =
      s.trace ++ formattedEvents rt level ch val fields extra s := by
  have hb := buildEntry_congr rt level val fields (getWriter s).2 s (getWriter_keeps s).1
  have hf := (getWriter_keeps s).2
  rcases hfmt : s.formatter.Format rt (buildEntry rt level val fields s) with ⟨data, _ | err⟩
  · have h := formatEntry_ok rt level val fields (getWriter s).2 data (by rw [hf, hb, hfmt])
    rw [h]
    simp [formattedEvents, hfmt, Writer.call, Sys.emit, getWriter_trace, hb]
  · have h := formatEntry_err rt level val fields (getWriter s).2 data err
      (by rw [hf, hb, hfmt])
    rw [h]
    simp [formattedEvents, hfmt, Writer.call, Sys.emit, getWriter_trace, hb]

theorem writeDebug_trace (rt : Runtime) (val : Any) (fields : List LogField) (s : Sys) :
    (writeDebug rt val fields s).trace = s.trace ++ formattedEvents rt "debug" .Debug val
      fields (rt.mergeGlobalFields (addCaller rt fields)) s :=
  writeFormatted_trace rt "debug" .Debug val fields _ s

theorem writeError_trace (rt : Runtime) (val : Any) (fields : List LogField) (s : Sys) :
    (writeError rt val fields s).trace = s.trace ++ formattedEvents rt "error" .Error val
      fields (rt.mergeGlobalFields (addCaller rt fields)) s :=
  writeFormatted_trace rt "error" .Error val fields _ s

theorem writeInfo_trace (rt : Runtime) (val : Any) (fields : List LogField) (s : Sys) :
    (writeInfo rt val fields s).trace = s.trace ++ formattedEvents rt "info" .Info val
      fields (rt.mergeGlobalFields (addCaller rt fields)) s :=
  writeFormatted_trace rt "info" .Info val fields _ s

theorem writeSlow_trace (rt : Runtime) (val : Any) (fields : List LogField) (s : Sys) :
    (writeSlow rt val fields s).trace = s.trace ++ formattedEvents rt "slow" .Slow val
      fields (rt.mergeGlobalFields (addCaller rt fields)) s :=
  writeFormatted_trace rt "slow" .Slow val fields _ s

theorem callback_then_trace (f : Sys → Sys) (evs : Sys → List Event)
    (hf : ∀ s, (f s).trace = s.trace ++ evs s) (he : ∀ s e, evs (s.emit e) = evs s)
    (s : Sys) :
    (f (s.emit .callback)).trace = s.trace ++ [Event.callback] ++ evs s := by
  rw [hf, he]
  rfl

theorem run_formatted (rt : Runtime) (c : EntryPoint) (s : Sys) (level : String) (val : Any)
    (fields : List LogField) (hg : c.gate s = true)
    (hr : c.record? rt = some (level, val, fields)) :
    ∃ pre, (pre = [] ∨ pre = [Event.callback]) ∧
      (c.run rt s).trace = s.trace ++ pre ++ formattedEvents rt level c.channel val fields
        (rt.mergeGlobalFields (addCaller rt fields)) s := by
  have h := hg
  cases c <;>
    simp [EntryPoint.gate, EntryPoint.gateLevel, EntryPoint.needsStat] at h
  case Debug v =>
    simp only [EntryPoint.record?, Option.some.injEq, Prod.mk.injEq] at hr
    obtain ⟨rfl, rfl, rfl⟩ := hr
    refine ⟨[], Or.inl rfl, ?_⟩
    simp [EntryPoint.run, Logx.Debug, shallLog, h, writeDebug_trace, EntryPoint.channel]
  case Debugf format v =>
    simp only [EntryPoint.record?, Option.some.injEq, Prod.mk.injEq] at hr
    obtain ⟨rfl, rfl, rfl⟩ := hr
    refine ⟨[], Or.inl rfl, ?_⟩
    simp [EntryPoint.run, Debugf, shallLog, h, writeDebug_trace, EntryPoint.channel]
  case Debugv v =>
    simp only [EntryPoint.record?, Option.some.injEq, Prod.mk.injEq] at hr
    obtain ⟨rfl, rfl, rfl⟩ := hr
    refine ⟨[], Or.inl rfl, ?_⟩
    simp [EntryPoint.run, Debugv, shallLog, h, writeDebug_trace, EntryPoint.channel]
  case Debugw msg fields =>
    simp only [EntryPoint.record?, Option.some.injEq, Prod.mk.injEq] at hr
    obtain ⟨rfl, rfl, rfl⟩ := hr
    refine ⟨[], Or.inl rfl, ?_⟩
    simp [EntryPoint.run, Debugw, shallLog, h, writeDebug_trace, EntryPoint.channel]
  case Debugfn fn =>
    simp only [EntryPoint.record?, Option.some.injEq, Prod.mk.injEq] at hr
    obtain ⟨rfl, rfl, rfl⟩ := hr
    refine ⟨[Event.callback], Or.inr rfl, ?_⟩
    simp only [EntryPoint.run, Debugfn, shallLog, h, decide_True, if_true, EntryPoint.channel]
    exact callback_then_trace _ _ (writeDebug_trace rt _ _) (formattedEvents_emit rt _ _ _ _ _) s
  case Error v =>
    simp only [EntryPoint.record?, Option.some.injEq, Prod.mk.injEq] at hr
    obtain ⟨rfl, rfl, rfl⟩ := hr
    refine ⟨[], Or.inl rfl, ?_⟩
    simp [EntryPoint.run, Logx.Error, shallLog, h, writeError_trace, EntryPoint.channel]
  case Errorf format v =>
    simp only [EntryPoint.record?, Option.some.injEq, Prod.mk.injEq] at hr
    obtain ⟨rfl, rfl, rfl⟩ := hr
    refine ⟨[], Or.inl rfl, ?_⟩
    simp [EntryPoint.run, Errorf, shallLog, h, writeError_trace, EntryPoint.channel]
  case Errorv v =>
    simp only [EntryPoint.record?, Option.some.injEq, Prod.mk.injEq] at hr
    obtain ⟨rfl, rfl, rfl⟩ := hr
    refine ⟨[], Or.inl rfl, ?_⟩
    simp [EntryPoint.run, Errorv, shallLog, h, writeError_trace, EntryPoint.channel]
  case Errorw msg fields =>
    simp only [EntryPoint.record?, Option.some.injEq, Prod.mk.injEq] at hr
    obtain ⟨rfl, rfl, rfl⟩ := hr
    refine ⟨[], Or.inl rfl, ?_⟩
    simp [EntryPoint.run, Errorw, shallLog, h, writeError_trace, EntryPoint.channel]
  case Errorfn fn =>
    simp only [EntryPoint.record?, Option.some.injEq, Prod.mk.injEq] at hr
    obtain ⟨rfl, rfl, rfl⟩ := hr
    refine ⟨[Event.callback], Or.inr rfl, ?_⟩
    simp only [EntryPoint.run, Errorfn, shallLog, h, decide_True, if_true, EntryPoint.channel]
    exact callback_then_trace _ _ (writeError_trace rt _ _) (formattedEvents_emit rt _ _ _ _ _) s
  case Info v =>
    simp only [EntryPoint.record?, Option.some.injEq, Prod.mk.injEq] at hr
    obtain ⟨rfl, rfl, rfl⟩ := hr
    refine ⟨[], Or.inl rfl, ?_⟩
    simp [EntryPoint.run, Info, shallLog, h, writeInfo_trace, EntryPoint.channel]
  case Infof format v =>
    simp only [EntryPoint.record?, Option.some.injEq, Prod.mk.injEq] at hr
    obtain ⟨rfl, rfl, rfl⟩ := hr
    refine ⟨[], Or.inl rfl, ?_⟩
    simp [EntryPoint.run, Infof, shallLog, h, writeInfo_trace, EntryPoint.channel]
  case Infov v =>
    simp only [EntryPoint.record?, Option.some.injEq, Prod.mk.injEq] at hr
    obtain ⟨rfl, rfl, rfl⟩ := hr
    refine ⟨[], Or.inl rfl, ?_⟩
    simp [EntryPoint.run, Infov, shallLog, h, writeInfo_trace, EntryPoint.channel]
  case Infow msg fields =>
    simp only [EntryPoint.record?, Option.some.injEq, Prod.mk.injEq] at hr
    obtain ⟨rfl, rfl, rfl⟩ := hr
    refine ⟨[], Or.inl rfl, ?_⟩
    simp [EntryPoint.run, Infow, shallLog, h, writeInfo_trace, EntryPoint.channel]
  case Infofn fn =>
    simp only [EntryPoint.record?, Option.some.injEq, Prod.mk.injEq] at hr
    obtain ⟨rfl, rfl, rfl⟩ := hr
    refine ⟨[Event.callback], Or.inr rfl, ?_⟩
    simp only [EntryPoint.run, Infofn, shallLog, h, decide_True, if_true, EntryPoint.channel]
    exact callback_then_trace _ _ (writeInfo_trace rt _ _) (formattedEvents_emit rt _ _ _ _ _) s
  case Slow v =>
    simp only [EntryPoint.record?, Option.some.injEq, Prod.mk.injEq] at hr
    obtain ⟨rfl, rfl, rfl⟩ := hr
    refine ⟨[], Or.inl rfl, ?_⟩
    simp [EntryPoint.run, Slow, shallLog, h, writeSlow_trace, EntryPoint.channel]
  case Slowf format v =>
    simp only [EntryPoint.record?, Option.some.injEq, Prod.mk.injEq] at hr
    obtain ⟨rfl, rfl, rfl⟩ := hr
    refine ⟨[], Or.inl rfl, ?_⟩
    simp [EntryPoint.run, Slowf, shallLog, h, writeSlow_trace, EntryPoint.channel]
  case Slowv v =>
    simp only [EntryPoint.record?, Option.some.injEq, Prod.mk.injEq] at hr
    obtain ⟨rfl, rfl, rfl⟩ := hr
    refine ⟨[], Or.inl rfl, ?_⟩
    simp [EntryPoint.run, Slowv, shallLog, h, writeSlow_trace, EntryPoint.channel]
  case Sloww msg fields =>
    simp only [EntryPoint.record?, Option.some.injEq, Prod.mk.injEq] at hr
    obtain ⟨rfl, rfl, rfl⟩ := hr
    refine ⟨[], Or.inl rfl, ?_⟩
    simp [EntryPoint.run, Sloww, shallLog, h, writeSlow_trace, EntryPoint.channel]
  case Slowfn fn =>
    simp only [EntryPoint.record?, Option.some.injEq, Prod.mk.injEq] at hr
    obtain ⟨rfl, rfl, rfl⟩ := hr
    refine ⟨[Event.callback], Or.inr rfl, ?_⟩
    simp only [EntryPoint.run, Slowfn, shallLog, h, decide_True, if_true, EntryPoint.channel]
    exact callback_then_trace _ _ (writeSlow_trace rt _ _) (formattedEvents_emit rt _ _ _ _ _) s
  all_goals simp [EntryPoint.record?] at hr

/-- C12, the claim as stated fails.  With an application writer active and
threshold Info, `Severe("boom")` and `Stat("up")` are accepted, yet no record
is built and no formatter runs: the writer receives the message text itself
(for Severe with the stack trace appended), not the formatter output, which
for this runtime would be `json`.  And on the Info channel, when the formatter
returns an error, the writer receives the rendering of the raw value `ready`,
not the output of the formatter. -/
theorem severe_and_stat_bypass_formatter :
    EntryPoint.gate (.Severe [.str "boom"]) Sys.sample = true ∧
    ((EntryPoint.run Runtime.sample (.Severe [.str "boom"]) Sys.sample).since
      Sys.sample).filterMap Event.value? = ["boom\nstack"] ∧
    ((EntryPoint.run Runtime.sample (.Severe [.str "boom"]) Sys.sample).since
      Sys.sample).any Event.isRecord = false ∧
    (Sys.sample.formatter.Format Runtime.sample
      (buildEntry Runtime.sample "severe" (.str "boom") [] Sys.sample)).1 = "json" ∧
    EntryPoint.gate (.Stat [.str "up"]) Sys.sample = true ∧
    ((EntryPoint.run Runtime.sample (.Stat [.str "up"]) Sys.sample).since
      Sys.sample).filterMap Event.value? = ["up"] ∧
    ((EntryPoint.run Runtime.sample (.Stat [.str "up"]) Sys.sample).since
      Sys.sample).any Event.isRecord = false ∧
    EntryPoint.gate (.Info [.str "ready"]) Sys.sample = true ∧
    ((EntryPoint.run Runtime.failing (.Info [.str "ready"]) Sys.sample).since
      Sys.sample).filterMap Event.value? = ["ready"] ∧
    (Sys.sample.formatter.Format Runtime.failing
      (buildEntry Runtime.failing "info" (.str "ready") [] Sys.sample)).1 = "" := by
  refine ⟨by decide, by decide, by decide, by decide, by decide, by decide, by decide,
    by decide, by decide, by decide⟩

theorem record?_level (rt : Runtime) (c : EntryPoint) (level : String) (val : Any)
    (fields : List LogField) (hr : c.record? rt = some (level, val, fields)) :
    (level, c.channel) ∈ [("debug", Channel.Debug), ("info", Channel.Info),
      ("error", Channel.Error), ("slow", Channel.Slow)] := by
  cases c <;> simp only [EntryPoint.record?, Option.some.injEq, Prod.mk.injEq] at hr <;>
    first
    | (obtain ⟨rfl, _, _⟩ := hr; simp [EntryPoint.channel])
    | simp at hr

/-- C12, amended.  For each of the channels debug, info, error and slow and for
every accepted call on that channel: one record is built, with that channel's
level name, the message value and the fields of the call, and is handed to the
active formatter; exactly one writer method is called, the one of that channel
on the active writer; the value forwarded is the output of the active formatter
on that record when the formatter returns no error, and the textual rendering
of the raw message value when it returns an error. -/
theorem formatted_channels (rt : Runtime) (c : EntryPoint) (s : Sys) (level : String)
    (val : Any) (fields : List LogField) (hg : c.gate s = true)
    (hr : c.record? rt = some (level, val, fields)) :
    (level, c.channel) ∈ [("debug", Channel.Debug), ("info", Channel.Info),
      ("error", Channel.Error), ("slow", Channel.Slow)] ∧
    ((c.run rt s).since s).filter Event.isRecord =
      [Event.record (buildEntry rt level val fields s)] ∧
    (∀ data : String,
      s.formatter.Format rt (buildEntry rt level val fields s) = (data, none) →
      ((c.run rt s).since s).filter Event.isWrite =
        [Event.write (getWriter s).1 c.channel data
          (rt.mergeGlobalFields (addCaller rt fields))]) ∧
    (∀ (data : String) (err : ErrorValue),
      s.formatter.Format rt (buildEntry rt level val fields s) = (data, some err) →
      ((c.run rt s).since s).filter Event.isWrite =
        [Event.write (getWriter s).1 c.channel (rt.fmtV val)
          (rt.mergeGlobalFields (addCaller rt fields))]) := by
  obtain ⟨pre, hpre, htrace⟩ := run_formatted rt c s level val fields hg hr
  have hsince := since_append s (c.run rt s) _ (by rw [htrace, List.append_assoc])
  rw [hsince]
  refine ⟨record?_level rt c level val fields hr, ?_, ?_, ?_⟩
  · rcases hf : s.formatter.Format rt (buildEntry rt level val fields s) with ⟨data, _ | err⟩ <;>
      rcases hpre with rfl | rfl <;>
      simp [formattedEvents, hf, Event.isRecord]
  · intro data hf
    rcases hpre with rfl | rfl <;> simp [formattedEvents, hf, Event.isWrite]
  · intro data err hf
    rcases hpre with rfl | rfl <;> simp [formattedEvents, hf, Event.isWrite]

/-- The amended C12 for `Infow("ready", port=8080)` with an application writer
active and threshold Info: the writer receives the formatter output. -/
theorem formatted_channels_witness :
    EntryPoint.gate (.Infow "ready" [⟨"port", .int 8080⟩]) Sys.sample = true ∧
    ((EntryPoint.run Runtime.sample (.Infow "ready" [⟨"port", .int 8080⟩])
      Sys.sample).since Sys.sample).filter Event.isWrite =
      [Event.write (getWriter Sys.sample).1 .Info "json"
        (Runtime.sample.mergeGlobalFields
          (addCaller Runtime.sample [⟨"port", .int 8080⟩]))] :=
  ⟨by decide,
    (formatted_channels Runtime.sample (.Infow "ready" [⟨"port", .int 8080⟩]) Sys.sample
      "info" (.str "ready") [⟨"port", .int 8080⟩] (by decide) rfl).2.2.1 "json" rfl⟩

theorem get?_set (e : logEntry) (k k1 : String) (v : Any) :
    (e.set k v).get? k1 = if k1 = k then some v else e.get? k1 := by
  induction e with
  | nil =>
    by_cases h : k1 = k
    · subst h; simp [logEntry.set, logEntry.get?]
    · have h2 : ¬ k = k1 := fun hh => h hh.symm
      simp [logEntry.set, logEntry.get?, h, h2]
  | cons p rest ih =>
    obtain ⟨k0, v0⟩ := p
    simp only [logEntry.set]
    by_cases h0 : k0 = k
    · subst h0
      by_cases h : k1 = k0
      · subst h; simp [logEntry.get?]
      · have h2 : ¬ k0 = k1 := fun hh => h hh.symm
        simp [logEntry.get?, h, h2]
    · simp only [h0, if_false]
      by_cases h1 : k0 = k1
      · subst h1
        have h2 : ¬ k0 = k := h0
        simp [logEntry.get?, h2]
      · have hrec : logEntry.get? ((k0, v0) :: logEntry.set rest k v) k1 =
            logEntry.get? (logEntry.set rest k v) k1 := by
          simp [logEntry.get?, h1]
        have hrec2 : logEntry.get? ((k0, v0) :: rest) k1 = logEntry.get? rest k1 := by
          simp [logEntry.get?, h1]
        rw [hrec, hrec2]
        exact ih

theorem lastField_cons (f : LogField) (fs : List LogField) (k : String) :
    lastField (f :: fs) k =
      match lastField fs k with
      | some v => some v
      | none => if f.Key = k then some f.Value else none := by
  unfold lastField
  rw [List.reverse_cons, List.find?_append]
  cases h : List.find? (fun f => decide (f.Key = k)) fs.reverse with
  | some g => simp
  | none =>
    by_cases hk : f.Key = k <;> simp [hk]

theorem get?_foldl_set (fs : List LogField) (e : logEntry) (k : String) :
    (fs.foldl (fun entry f => logEntry.set entry f.Key f.Value) e).get? k =
      match lastField fs k with
      | some v => some v
      | none => e.get? k := by
  induction fs generalizing e with
  | nil => simp [lastField]
  | cons f fs ih =>
    rw [List.foldl_cons, ih, lastField_cons, get?_set]
    cases h : lastField fs k with
    | some v => simp
    | none =>
      by_cases hk : f.Key = k
      · subst hk
        simp
      · have hk2 : ¬ k = f.Key := fun hh => hk hh.symm
        simp [hk, hk2]

theorem buildEntry_get? (rt : Runtime) (level : String) (val : Any) (fields : List LogField)
    (s : Sys) (k : String) :
    (buildEntry rt level val fields s).get? k =
      match lastField fields k with
      | some v => some v
      | none =>
        if k = "message" then some (messageOf rt val)
        else if k = "level" then some (.str level)
        else if k = "@timestamp" then some (.str (rt.now s.timeFormat))
        else none := by
  unfold buildEntry
  simp only []
  rw [get?_foldl_set]
  cases h : lastField fields k with
  | some v => rfl
  | none =>
    cases val <;> simp only [messageOf, get?_set] <;> simp [logEntry.get?]

theorem lastField_none (fs : List LogField) (k : String) (h : ∀ f ∈ fs, f.Key ≠ k) :
    lastField fs k = none := by
  unfold lastField
  rw [Option.map_eq_none', List.find?_eq_none]
  intro f hf
  simpa using h f (List.mem_reverse.mp hf)

theorem lastField_mem (fs : List LogField) (k : String) (v : Any)
    (h : lastField fs k = some v) : ∃ g ∈ fs, g.Key = k ∧ g.Value = v := by
  unfold lastField at h
  rw [Option.map_eq_some'] at h
  obtain ⟨g, hg, hv⟩ := h
  have hmem := List.mem_of_find?_eq_some hg
  have hkey := List.find?_some hg
  exact ⟨g, List.mem_reverse.mp hmem, by simpa using hkey, hv⟩

theorem lastField_isSome (fs : List LogField) (f : LogField) (hf : f ∈ fs) :
    (lastField fs f.Key).isSome = true := by
  cases h : lastField fs f.Key with
  | some v => rfl
  | none =>
    unfold lastField at h
    rw [Option.map_eq_none', List.find?_eq_none] at h
    have := h f (List.mem_reverse.mpr hf)
    simp at this

/-- C13, the claim as stated fails.  A field may carry a reserved key, and two
fields may carry the same key: with the field `level=bogus` the record that
`formatEntry` builds for an info call maps `level` to `bogus`, not to `info`;
with the field `message=other` it maps `message` to `other`; and with the
fields `a=1, a=2` it maps `a` to 2, so the key of the first field is not mapped
to that field's value. -/
theorem field_overrides_reserved_key :
    (buildEntry Runtime.sample "info" (.str "ready") [⟨"level", .str "bogus"⟩]
      Sys.sample).get? "level" = some (.str "bogus") ∧
    (buildEntry Runtime.sample "info" (.str "ready") [⟨"level", .str "bogus"⟩]
      Sys.sample).get? "level" ≠ some (.str "info") ∧
    (buildEntry Runtime.sample "info" (.str "ready") [⟨"message", .str "other"⟩]
      Sys.sample).get? "message" ≠ some (.str "ready") ∧
    (buildEntry Runtime.sample "info" (.str "ready") [⟨"a", .int 1⟩, ⟨"a", .int 2⟩]
      Sys.sample).get? "a" ≠ some (.int 1) := by
  refine ⟨by decide, by decide, by decide, by decide⟩

/-- C13, amended.  For every level name, message and list of fields, the record
that `formatEntry` hands to the formatter has an `@timestamp` key; it maps
`level` to the level name unless a field carries the key `level`, and `message`
to the message (to its textual rendering when it is not a string) unless a
field carries the key `message`; and it maps the key of every field to the
value of the last field with that key, so to the value of that very field when
the keys of the fields are pairwise distinct. -/
theorem record_contents (rt : Runtime) (level : String) (val : Any)
    (fields : List LogField) (s : Sys) :
    ((buildEntry rt level val fields s).get? "@timestamp").isSome = true ∧
    ((∀ f ∈ fields, f.Key ≠ "level") →
      (buildEntry rt level val fields s).get? "level" = some (.str level)) ∧
    ((∀ f ∈ fields, f.Key ≠ "message") →
      (buildEntry rt level val fields s).get? "message" = some (messageOf rt val)) ∧
    (∀ f ∈ fields, (lastField fields f.Key).isSome = true ∧
      (buildEntry rt level val fields s).get? f.Key = lastField fields f.Key) ∧
    ((fields.map (fun f => f.Key)).Nodup → ∀ f ∈ fields,
      (buildEntry rt level val fields s).get? f.Key = some f.Value) := by
  have hfield : ∀ f ∈ fields, (lastField fields f.Key).isSome = true ∧
      (buildEntry rt level val fields s).get? f.Key = lastField fields f.Key := by
    intro f hf
    have hsome := lastField_isSome fields f hf
    refine ⟨hsome, ?_⟩
    rw [buildEntry_get?]
    cases h : lastField fields f.Key with
    | some v => rfl
    | none => simp [h] at hsome
  refine ⟨?_, ?_, ?_, hfield, ?_⟩
  · rw [buildEntry_get?]
    cases h : lastField fields "@timestamp" with
    | some v => rfl
    | none => simp
  · intro h
    rw [buildEntry_get?, lastField_none fields "level" h]
    simp
  · intro h
    rw [buildEntry_get?, lastField_none fields "message" h]
    simp
  · intro hnodup f hf
    obtain ⟨hsome, hget⟩ := hfield f hf
    rw [hget]
    cases h : lastField fields f.Key with
    | none => simp [h] at hsome
    | some v =>
      obtain ⟨g, hg, hkey, hval⟩ := lastField_mem fields f.Key v h
      have hgf : g = f := List.inj_on_of_nodup_map hnodup hg hf hkey
      subst hgf
      rw [hval]

theorem foldl_rest (rt : Runtime) (entry : logEntry) (buf : String) :
    entry.foldl (fun buf p =>
      if p.1 ≠ "@timestamp" ∧ p.1 ≠ "level" ∧ p.1 ≠ "message" then
        buf ++ (" " ++ p.1 ++ "=" ++ rt.fmtV p.2)
      else buf) buf =
    buf ++ joinAll (entry.rest.map (fun p => " " ++ p.1 ++ "=" ++ rt.fmtV p.2)) := by
  induction entry generalizing buf with
  | nil => simp [logEntry.rest, joinAll]
  | cons p rest ih =>
    rw [List.foldl_cons, ih]
    by_cases h : p.1 ≠ "@timestamp" ∧ p.1 ≠ "level" ∧ p.1 ≠ "message"
    · have hr : logEntry.rest (p :: rest) = p :: logEntry.rest rest := by
        simp only [logEntry.rest]
        rw [List.filter_cons_of_pos (by simpa using h)]
      rw [hr, if_pos h]
      simp [joinAll, String.append_assoc]
    · have hr : logEntry.rest (p :: rest) = logEntry.rest rest := by
        simp only [logEntry.rest]
        rw [List.filter_cons_of_neg (by simpa using h)]
      rw [hr, if_neg h]

theorem plainFormat_eq (rt : Runtime) (entry : logEntry) (t lvl msg : Any)
    (ht : entry.get? "@timestamp" = some t) (hl : entry.get? "level" = some lvl)
    (hm : entry.get? "message" = some msg) :
    PlainFormatter.Format rt entry =
      (rt.fmtV t ++ " " ++ rt.fmtV lvl ++ " " ++ rt.fmtV msg ++
        joinAll (entry.rest.map (fun p => " " ++ p.1 ++ "=" ++ rt.fmtV p.2)) ++ "\n",
        none) := by
  simp only [PlainFormatter.Format, ht, hl, hm, foldl_rest]
  simp [String.append_assoc]

/-- C14 (line formatter shape).  For every record that contains `@timestamp`,
`level` and `message`, `PlainFormatter.Format` returns no error and its output
is the rendering of the timestamp, one space, the level, one space, the
message, then ` key=value` for each remaining field, then one newline.  The
remaining fields are the pairs of the record whose key is none of the three
reserved keys, each as often as the record holds it (once, the record being a
map), in the order in which the map is ranged over; with no remaining field the
output is the timestamp, a space, the level, a space, the message and the
newline. -/
theorem plain_shape (rt : Runtime) (entry : logEntry) (t lvl msg : Any)
    (ht : entry.get? "@timestamp" = some t) (hl : entry.get? "level" = some lvl)
    (hm : entry.get? "message" = some msg) :
    PlainFormatter.Format rt entry =
      (rt.fmtV t ++ " " ++ rt.fmtV lvl ++ " " ++ rt.fmtV msg ++
        joinAll (entry.rest.map (fun p => " " ++ p.1 ++ "=" ++ rt.fmtV p.2)) ++ "\n",
        none) ∧
    (∀ p ∈ entry.rest, p.1 ≠ "@timestamp" ∧ p.1 ≠ "level" ∧ p.1 ≠ "message") ∧
    (∀ p : String × Any, p.1 ≠ "@timestamp" ∧ p.1 ≠ "level" ∧ p.1 ≠ "message" →
      entry.rest.count p = entry.count p) ∧
    (entry.rest = [] → PlainFormatter.Format rt entry =
      (rt.fmtV t ++ " " ++ rt.fmtV lvl ++ " " ++ rt.fmtV msg ++ "\n", none)) := by
  have heq := plainFormat_eq rt entry t lvl msg ht hl hm
  refine ⟨heq, ?_, ?_, ?_⟩
  · intro p hp
    simpa [logEntry.rest] using (List.mem_filter.mp hp).2
  · intro p hp
    simp only [logEntry.rest]
    rw [List.count_filter]
    simpa using hp
  · intro hnil
    rw [heq, hnil]
    simp [joinAll]

/-- C14 on the record `@timestamp=T0 level=info message=ready port=8080`. -/
theorem plain_shape_witness :
    logEntry.sample.get? "@timestamp" = some (.str "T0") ∧
    logEntry.sample.get? "level" = some (.str "info") ∧
    logEntry.sample.get? "message" = some (.str "ready") ∧
    PlainFormatter.Format Runtime.sample logEntry.sample =
      ("T0 info ready port=8080\n", none) :=
  ⟨rfl, rfl, rfl,
    (plain_shape Runtime.sample logEntry.sample (.str "T0") (.str "info") (.str "ready")
      rfl rfl rfl).1.trans (by decide)⟩

theorem newlines_append (a b : String) : newlines (a ++ b) = newlines a + newlines b := by
  simp [newlines, String.data_append, List.count_append]

theorem get?_mem (entry : logEntry) (k : String) (v : Any) (h : entry.get? k = some v) :
    ∃ p ∈ entry, p.2 = v := by
  unfold logEntry.get? at h
  rw [Option.map_eq_some'] at h
  obtain ⟨p, hp, hv⟩ := h
  exact ⟨p, List.mem_of_find?_eq_some hp, hv⟩

theorem newlines_joinAll (l : List String) (h : ∀ x ∈ l, newlines x = 0) :
    newlines (joinAll l) = 0 := by
  induction l with
  | nil => decide
  | cons x xs ih =>
    simp only [joinAll, newlines_append]
    rw [h x (List.mem_cons_self x xs), ih (fun y hy => h y (List.mem_cons_of_mem x hy))]

/-- C15, the claim as stated fails.  The record whose message is the two-line
text `a`, newline, `b` is rendered as `T0 info a`, newline, `b`, newline: the
output holds two newline characters, not one. -/
theorem plain_message_with_newline :
    (PlainFormatter.Format Runtime.sample
      [("@timestamp", .str "T0"), ("level", .str "info"), ("message", .str "a\nb")]).1
      = "T0 info a\nb\n" ∧
    newlines (PlainFormatter.Format Runtime.sample
      [("@timestamp", .str "T0"), ("level", .str "info"), ("message", .str "a\nb")]).1
      = 2 := by
  refine ⟨by decide, by decide⟩

theorem plainFormat_body (rt : Runtime) (entry : logEntry) :
    ∃ body : String, PlainFormatter.Format rt entry = (body ++ "\n", none) ∧
      ((∀ p ∈ entry, newlines p.1 = 0 ∧ newlines (rt.fmtV p.2) = 0) → newlines body = 0) := by
  refine ⟨_, by simp only [PlainFormatter.Format, foldl_rest]; rfl, ?_⟩
  intro h
  have hval : ∀ k v, entry.get? k = some v → newlines (rt.fmtV v) = 0 := by
    intro k v hk
    obtain ⟨p, hp, hv⟩ := get?_mem entry k v hk
    rw [← hv]
    exact (h p hp).2
  have hrest : newlines (joinAll (entry.rest.map
      (fun p => " " ++ p.1 ++ "=" ++ rt.fmtV p.2))) = 0 := by
    apply newlines_joinAll
    intro x hx
    obtain ⟨p, hp, rfl⟩ := List.mem_map.mp hx
    have hmem : p ∈ entry := (List.mem_filter.mp hp).1
    have hsp : newlines " " = 0 := by decide
    have heq : newlines "=" = 0 := by decide
    simp [newlines_append, (h p hmem).1, (h p hmem).2, hsp, heq]
  have hsp : newlines " " = 0 := by decide
  have hem : newlines "" = 0 := by decide
  rw [newlines_append, hrest]
  have hv1 := hval "@timestamp"
  have hv2 := hval "level"
  have hv3 := hval "message"
  generalize entry.get? "@timestamp" = o1 at hv1 ⊢
  generalize entry.get? "level" = o2 at hv2 ⊢
  generalize entry.get? "message" = o3 at hv3 ⊢
  cases o1 <;> cases o2 <;> cases o3 <;>
    simp [newlines_append, hsp, hem, hv1, hv2, hv3]

/-- C15, amended.  For every record, `PlainFormatter.Format` returns no error
and its output ends with a newline character; the output holds exactly one
newline character, that last one, whenever no key of the record and no
rendering of a value of the record holds a newline character. -/
theorem plain_single_line (rt : Runtime) (entry : logEntry) :
    (PlainFormatter.Format rt entry).2 = none ∧
    (PlainFormatter.Format rt entry).1.data.getLast? = some newline ∧
    ((∀ p ∈ entry, newlines p.1 = 0 ∧ newlines (rt.fmtV p.2) = 0) →
      newlines (PlainFormatter.Format rt entry).1 = 1) := by
  obtain ⟨body, hbody, hcount⟩ := plainFormat_body rt entry
  have hnl : "\n".data = [newline] := by decide
  rw [hbody]
  refine ⟨rfl, ?_, ?_⟩
  · rw [String.data_append, hnl]
    simp
  · intro h
    have h1 : newlines "\n" = 1 := by decide
    simp [newlines_append, hcount h, h1]

theorem setFormatter_same_type (f : Formatter) (s : Sys)
    (h : f.typeOf = s.formatter.typeOf) :
    SetFormatter (some f) s = (.returns, { s with formatter := f }) := by
  simp [SetFormatter, formatter.Store, h]

theorem setFormatter_other_type (f : Formatter) (s : Sys)
    (h : f.typeOf ≠ s.formatter.typeOf) :
    SetFormatter (some f) s =
      (.panics ⟨"sync/atomic: store of inconsistently typed value into Value"⟩, s) := by
  simp [SetFormatter, formatter.Store, h]

/-- C17, the code at the failing input.  At process start the active formatter
is the JSON default.  `SetFormatter(&PlainFormatter{})` does not return: the
variable `formatter` is an `atomic.Value` that `init` filled with a
`*JsonFormatter`, and a store of a value of another concrete type panics.  The
active formatter stays the JSON one, and the next `formatEntry` uses it.
`SetFormatter(nil)` returns normally and leaves the default in place. -/
theorem setFormatter_plain_panics :
    Sys.start.formatter.typeOf = "*logx.JsonFormatter" ∧
    (SetFormatter (some .PlainFormatter) Sys.start).1 =
      .panics ⟨"sync/atomic: store of inconsistently typed value into Value"⟩ ∧
    (SetFormatter (some .PlainFormatter) Sys.start).2.formatter.typeOf =
      "*logx.JsonFormatter" ∧
    (formatEntry Runtime.sample "info" (.str "ready") []
      (SetFormatter (some .PlainFormatter) Sys.start).2).1 = "json" ∧
    (PlainFormatter.Format Runtime.sample
      (buildEntry Runtime.sample "info" (.str "ready") [] Sys.start)).1 =
      "T0 info ready\n" ∧
    (SetFormatter none Sys.start).1 = .returns ∧
    (SetFormatter none Sys.start).2.formatter.typeOf = "*logx.JsonFormatter" := by
  refine ⟨by decide, by decide, by decide, by decide, by decide, by decide, by decide⟩

theorem json_hexVal_hexChar (k : Nat) (h : k < 16) : json.hexVal? (json.hexChar k) = some k := by
  interval_cases k <;> rfl

theorem json_char_of_toNat (c : Char) (n : Nat) (h : c.toNat = n) : c = Char.ofNat n := by
  rw [← h, Char.ofNat_toNat]

theorem json_parse_hex4 (n : Nat) (rest : List Char) (h : n < 65536)
    (hv : Nat.isValidChar n) :
    json.parseStringBody (json.backslash :: 'u' :: (json.hex4 n ++ rest)) =
      (json.parseStringBody rest).map (fun r => (Char.ofNat n :: r.1, r.2)) := by
  have h1 := json_hexVal_hexChar (n / 4096 % 16) (Nat.mod_lt _ (by decide))
  have h2 := json_hexVal_hexChar (n / 256 % 16) (Nat.mod_lt _ (by decide))
  have h3 := json_hexVal_hexChar (n / 16 % 16) (Nat.mod_lt _ (by decide))
  have h4 := json_hexVal_hexChar (n % 16) (Nat.mod_lt _ (by decide))
  have hsum : n / 4096 % 16 * 4096 + n / 256 % 16 * 256 + n / 16 % 16 * 16 + n % 16 = n := by
    omega
  have hq : ¬ json.backslash = json.quote := by decide
  simp only [json.hex4, List.cons_append, List.nil_append]
  rw [json.parseStringBody]
  simp only [hq, if_false, if_true, h1, h2, h3, h4, hsum, hv]

theorem json_parse_short (e ch : Char) (rest : List Char) (hu : ¬ e = 'u')
    (he : json.unescape? e = some ch) :
    json.parseStringBody (json.backslash :: e :: rest) =
      (json.parseStringBody rest).map (fun r => (ch :: r.1, r.2)) := by
  have hq : ¬ json.backslash = json.quote := by decide
  rw [json.parseStringBody.eq_def]
  simp only [hq, if_false, if_true, hu, he]

theorem json_parse_plain (c : Char) (rest : List Char) (hq : ¬ c = json.quote)
    (hb : ¬ c = json.backslash) (hc : ¬ c.toNat < 32) :
    json.parseStringBody (c :: rest) =
      (json.parseStringBody rest).map (fun r => (c :: r.1, r.2)) := by
  rw [json.parseStringBody.eq_def]
  simp only [hq, hb, hc, if_false]

theorem json_escaped_lt (c : Char) (h : json.escapedAsUnicode c = true) : c.toNat < 65536 := by
  simp only [json.escapedAsUnicode, Bool.or_eq_true, decide_eq_true_eq] at h
  omega

theorem json_parse_escape (short : Bool) (c : Char) (rest : List Char) :
    json.parseStringBody (json.escapeChar short c ++ rest) =
      (json.parseStringBody rest).map (fun r => (c :: r.1, r.2)) := by
  unfold json.escapeChar
  split_ifs with h1 h2 h3 h4 h5 h6 h7 h8
  · subst h1
    exact json_parse_short _ _ rest (by decide) (by decide)
  · subst h2
    exact json_parse_short _ _ rest (by decide) (by decide)
  · rw [json_char_of_toNat c 10 h3]
    exact json_parse_short _ _ rest (by decide) (by decide)
  · rw [json_char_of_toNat c 13 h4]
    exact json_parse_short _ _ rest (by decide) (by decide)
  · rw [json_char_of_toNat c 9 h5]
    exact json_parse_short _ _ rest (by decide) (by decide)
  · rw [json_char_of_toNat c 8 h6.2]
    exact json_parse_short _ _ rest (by decide) (by decide)
  · rw [json_char_of_toNat c 12 h7.2]
    exact json_parse_short _ _ rest (by decide) (by decide)
  · have hp := json_parse_hex4 c.toNat rest (json_escaped_lt c h8) c.valid
    rw [Char.ofNat_toNat] at hp
    exact hp
  · have hc : ¬ c.toNat < 32 := by
      intro hlt
      apply h8
      simp [json.escapedAsUnicode, hlt]
    exact json_parse_plain c rest h1 h2 hc

theorem json_parse_string (short : Bool) (s rest : List Char) :
    json.parseStringBody (s.flatMap (json.escapeChar short) ++ json.quote :: rest) =
      some (s, rest) := by
  induction s with
  | nil =>
    simp only [List.flatMap_nil, List.nil_append]
    rw [json.parseStringBody.eq_def]
    simp
  | cons c s ih =>
    rw [List.flatMap_cons, List.append_assoc, json_parse_escape, ih]
    rfl

theorem json_digitVal_digitChar (d : Nat) (h : d < 10) :
    json.digitVal? (json.digitChar d) = some d := by
  interval_cases d <;> rfl

theorem json_digitChar_ne_minus (d : Nat) (h : d < 10) : ¬ json.digitChar d = '-' := by
  interval_cases d <;> decide

theorem json_digitsLE_eq (fuel n : Nat) (h : n ≤ fuel) :
    json.digitsLE fuel n = Nat.digits 10 n := by
  induction fuel generalizing n with
  | zero =>
    have hn : n = 0 := by omega
    subst hn
    simp [json.digitsLE]
  | succ fuel ih =>
    by_cases hn : n = 0
    · subst hn
      simp [json.digitsLE]
    · have hpos : 0 < n := Nat.pos_of_ne_zero hn
      rw [json.digitsLE, if_neg hn, ih (n / 10) (by omega),
        Nat.digits_def' (by decide) hpos]

theorem json_parseDigits_map (ds : List Nat) (tail : List Char) (acc : Nat)
    (hd : ∀ d ∈ ds, d < 10) (ht : json.EndsNumber tail) :
    json.parseDigits (ds.map json.digitChar ++ tail) acc =
      (ds.foldl (fun a d => a * 10 + d) acc, tail) := by
  induction ds generalizing acc with
  | nil =>
    cases tail with
    | nil => simp [json.parseDigits]
    | cons c rest => simp [json.parseDigits, ht c rest rfl]
  | cons d ds ih =>
    simp only [List.map_cons, List.cons_append, json.parseDigits,
      json_digitVal_digitChar d (hd d (List.mem_cons_self d ds)), List.foldl_cons]
    exact ih _ (fun x hx => hd x (List.mem_cons_of_mem d hx))

theorem json_foldl_digits (L : List Nat) :
    L.reverse.foldl (fun a d => a * 10 + d) 0 = Nat.ofDigits 10 L := by
  induction L with
  | nil => simp
  | cons d L ih =>
    rw [List.reverse_cons, List.foldl_append, ih, Nat.ofDigits_cons]
    simp only [List.foldl_cons, List.foldl_nil]
    omega

theorem json_encodeNat_digits (n : Nat) :
    ∃ ds : List Nat, json.encodeNat n = ds.map json.digitChar ∧ ds ≠ [] ∧
      (∀ d ∈ ds, d < 10) ∧ ds.foldl (fun a d => a * 10 + d) 0 = n := by
  by_cases hn : n = 0
  · subst hn
    exact ⟨[0], by simp [json.encodeNat], by simp, by simp, by simp⟩
  · refine ⟨(Nat.digits 10 n).reverse, ?_, ?_, ?_, ?_⟩
    · simp [json.encodeNat, hn, json_digitsLE_eq n n (le_refl n)]
    · simp [Nat.digits_eq_nil_iff_eq_zero, hn]
    · intro d hd
      exact Nat.digits_lt_base (by decide) (List.mem_reverse.mp hd)
    · rw [json_foldl_digits, Nat.ofDigits_digits]

theorem json_parseInt_nat (n : Nat) (tail : List Char) (ht : json.EndsNumber tail) :
    json.parseInt (json.encodeNat n ++ tail) = some ((n : Int), tail) := by
  obtain ⟨ds, henc, hne, hlt, hval⟩ := json_encodeNat_digits n
  have hparse := json_parseDigits_map ds tail 0 hlt ht
  rw [hval] at hparse
  rw [henc]
  cases ds with
  | nil => exact absurd rfl hne
  | cons d ds =>
    have hd := hlt d (List.mem_cons_self d ds)
    simp only [List.map_cons, List.cons_append] at hparse ⊢
    rw [json.parseInt.eq_def]
    simp only [json_digitChar_ne_minus d hd, if_false, json_digitVal_digitChar d hd,
      Option.isSome_some, if_true, hparse]

theorem json_parseInt_encode (i : Int) (tail : List Char) (ht : json.EndsNumber tail) :
    json.parseInt (json.encodeInt i ++ tail) = some (i, tail) := by
  cases i with
  | ofNat n => exact json_parseInt_nat n tail ht
  | negSucc n =>
    obtain ⟨ds, henc, hne, hlt, hval⟩ := json_encodeNat_digits (n + 1)
    have hparse := json_parseDigits_map ds tail 0 hlt ht
    rw [hval] at hparse
    simp only [json.encodeInt, List.cons_append]
    rw [henc]
    cases ds with
    | nil => exact absurd rfl hne
    | cons d ds =>
      have hd := hlt d (List.mem_cons_self d ds)
      simp only [List.map_cons, List.cons_append] at hparse ⊢
      rw [json.parseInt.eq_def]
      simp only [if_true, json_digitVal_digitChar d hd, Option.isSome_some, hparse]
      rfl

theorem json_quote_not_digit : json.digitVal? json.quote = none := by decide

theorem json_endsNumber_comma (rest : List Char) : json.EndsNumber (',' :: rest) := by
  intro c r h
  simp only [List.cons.injEq] at h
  rw [← h.1]
  decide

theorem json_endsNumber_rbrace (rest : List Char) : json.EndsNumber (json.rbrace :: rest) := by
  intro c r h
  simp only [List.cons.injEq] at h
  rw [← h.1]
  decide

theorem json_parseInt_quote (rest : List Char) : json.parseInt (json.quote :: rest) = none := by
  have h1 : ¬ json.quote = '-' := by decide
  rw [json.parseInt.eq_def]
  simp [h1, json_quote_not_digit]

theorem json_parseValue (short : Bool) (v : Any) (e tail : List Char)
    (hpl : json.Plain v = true)
    (henc : json.encodeValue short v = some e) (ht : json.EndsNumber tail) :
    json.parseValue (e ++ tail) = some (v, tail) := by
  cases v with
  | str t =>
    simp only [json.encodeValue, Option.some.injEq] at henc
    subst henc
    simp only [json.encodeString, List.cons_append, List.append_assoc, List.singleton_append,
      json.parseValue, if_true, json_parse_string]
    rfl
  | int i =>
    simp only [json.encodeValue, Option.some.injEq] at henc
    subst henc
    have hp := json_parseInt_encode i tail ht
    generalize json.encodeInt i ++ tail = l at hp
    cases l with
    | nil => simp [json.parseInt] at hp
    | cons c rest =>
      by_cases hc : c = json.quote
      · subst hc
        rw [json_parseInt_quote] at hp
        exact absurd hp (by simp)
      · simp only [json.parseValue, hc, if_false, hp]
        rfl
  | _ => simp [json.Plain] at hpl

theorem json_parseMember (short : Bool) (p : String × Any) (e tail : List Char)
    (hpl : json.Plain p.2 = true)
    (henc : json.encodeMember short p = some e) (ht : json.EndsNumber tail) :
    json.parseMember (e ++ tail) = some (p, tail) := by
  obtain ⟨k, v⟩ := p
  simp only [json.encodeMember, Option.map_eq_some'] at henc
  obtain ⟨ev, hev, rfl⟩ := henc
  have hv := json_parseValue short v ev tail hpl hev ht
  simp only [json.encodeString, List.cons_append, List.append_assoc, List.singleton_append,
    json.parseMember, if_true, json_parse_string, List.nil_append, hv]
  rfl

theorem json_encodeMember_length (short : Bool) (p : String × Any) (e : List Char)
    (henc : json.encodeMember short p = some e) : 1 ≤ e.length := by
  simp only [json.encodeMember, Option.map_eq_some'] at henc
  obtain ⟨ev, _, rfl⟩ := henc
  simp [json.encodeString]

theorem json_encodeMembers_length (short : Bool) (ms : logEntry) (b : List Char)
    (henc : json.encodeMembers short ms = some b) : ms.length ≤ b.length := by
  induction ms generalizing b with
  | nil => simp
  | cons p rest ih =>
    cases rest with
    | nil =>
      simp only [json.encodeMembers] at henc
      simpa using json_encodeMember_length short p b henc
    | cons q rest =>
      simp only [json.encodeMembers] at henc
      cases h1 : json.encodeMember short p with
      | none => simp [h1] at henc
      | some a =>
        cases h2 : json.encodeMembers short (q :: rest) with
        | none => simp [h1, h2] at henc
        | some b2 =>
          simp only [h1, h2, Option.some.injEq] at henc
          subst henc
          have := ih b2 h2
          simp only [List.length_cons, List.length_append] at this ⊢
          omega

theorem json_parseMembers (short : Bool) (ms : logEntry) (b tail : List Char) (fuel : Nat)
    (hpl : ∀ p ∈ ms, json.Plain p.2 = true)
    (hne : ms ≠ []) (henc : json.encodeMembers short ms = some b)
    (hfuel : ms.length ≤ fuel) :
    json.parseMembers fuel (b ++ json.rbrace :: tail) = some (ms, tail) := by
  induction ms generalizing b fuel with
  | nil => exact absurd rfl hne
  | cons p rest ih =>
    cases fuel with
    | zero => simp at hfuel
    | succ fuel =>
      have hcr : ¬ json.rbrace = ',' := by decide
      cases rest with
      | nil =>
        simp only [json.encodeMembers] at henc
        have hm := json_parseMember short p b (json.rbrace :: tail)
          (hpl p (List.mem_cons_self p [])) henc (json_endsNumber_rbrace tail)
        simp only [json.parseMembers, hm, hcr, if_false, if_true]
      | cons q rest =>
        simp only [json.encodeMembers] at henc
        cases h1 : json.encodeMember short p with
        | none => simp [h1] at henc
        | some a =>
          cases h2 : json.encodeMembers short (q :: rest) with
          | none => simp [h1, h2] at henc
          | some b2 =>
            simp only [h1, h2, Option.some.injEq] at henc
            subst henc
            have hm := json_parseMember short p a
              (',' :: (b2 ++ json.rbrace :: tail))
              (hpl p (List.mem_cons_self p (q :: rest))) h1 (json_endsNumber_comma _)
            have hrec := ih b2 fuel (fun x hx => hpl x (List.mem_cons_of_mem p hx))
              (by simp) h2 (by simpa using hfuel)
            simp only [List.append_assoc, List.cons_append, json.parseMembers, hm, if_true,
              hrec]
            rfl

theorem json_encodeValue_some (short : Bool) (v : Any) (h : json.Plain v = true) :
    ∃ e, json.encodeValue short v = some e := by
  cases v <;> simp [json.Plain] at h <;> simp [json.encodeValue]

theorem json_encodeMembers_some (short : Bool) (ms : logEntry)
    (h : ∀ p ∈ ms, json.Plain p.2 = true) : ∃ b, json.encodeMembers short ms = some b := by
  induction ms with
  | nil => exact ⟨[], rfl⟩
  | cons p rest ih =>
    obtain ⟨e, he⟩ := json_encodeValue_some short p.2 (h p (List.mem_cons_self p rest))
    obtain ⟨b, hb⟩ := ih (fun q hq => h q (List.mem_cons_of_mem p hq))
    cases rest with
    | nil => simp [json.encodeMembers, json.encodeMember, he]
    | cons q rest => simp [json.encodeMembers, json.encodeMember, he, hb]

theorem json_parseObject_members (short : Bool) (ms : logEntry) (b : List Char)
    (hpl : ∀ p ∈ ms, json.Plain p.2 = true)
    (henc : json.encodeMembers short ms = some b) :
    json.parseObject ⟨json.lbrace :: (b ++ [json.rbrace])⟩ = some ms := by
  cases ms with
  | nil =>
    simp only [json.encodeMembers, Option.some.injEq] at henc
    subst henc
    simp [json.parseObject]
  | cons p rest =>
    have hlen := json_encodeMembers_length short (p :: rest) b henc
    have hb : ¬ b ++ [json.rbrace] = [json.rbrace] := by
      intro hcontra
      have h1 := congrArg List.length hcontra
      rw [List.length_append, List.length_singleton] at h1
      rw [List.length_cons] at hlen
      omega
    have hfuel : (p :: rest).length ≤
        (⟨json.lbrace :: (b ++ [json.rbrace])⟩ : String).length := by
      simp only [String.length, List.length_cons, List.length_append] at hlen ⊢
      omega
    have hparse := json_parseMembers short (p :: rest) b [] _ hpl (by simp) henc hfuel
    simp only [json.parseObject, if_true, hb, if_false, hparse]

theorem get?_eq_some_iff (entry : logEntry) (hk : (entry.map Prod.fst).Nodup)
    (k : String) (v : Any) : entry.get? k = some v ↔ (k, v) ∈ entry := by
  induction entry with
  | nil => simp [logEntry.get?]
  | cons p rest ih =>
    obtain ⟨k0, v0⟩ := p
    simp only [List.map_cons, List.nodup_cons] at hk
    by_cases h : k0 = k
    · subst h
      have hnot : ∀ w, (k0, w) ∉ rest := by
        intro w hw
        exact hk.1 (List.mem_map.mpr ⟨(k0, w), hw, rfl⟩)
      simp only [logEntry.get?, List.find?_cons_of_pos, decide_True, Option.map_some',
        Option.some.injEq, List.mem_cons, Prod.mk.injEq, true_and, hnot, or_false]
      exact eq_comm
    · have hrec : logEntry.get? ((k0, v0) :: rest) k = logEntry.get? rest k := by
        simp [logEntry.get?, h]
      have h2 : ¬ k = k0 := fun hh => h hh.symm
      rw [hrec, ih hk.2]
      simp [h2]

theorem get?_perm (a b : logEntry) (hp : a.Perm b) (hk : (b.map Prod.fst).Nodup)
    (k : String) : a.get? k = b.get? k := by
  have hka : (a.map Prod.fst).Nodup := (hp.map Prod.fst).nodup_iff.mpr hk
  cases hb : b.get? k with
  | some v =>
    rw [get?_eq_some_iff a hka]
    exact hp.mem_iff.mpr ((get?_eq_some_iff b hk k v).mp hb)
  | none =>
    cases ha : a.get? k with
    | none => rfl
    | some v =>
      have := (get?_eq_some_iff b hk k v).mpr (hp.mem_iff.mp ((get?_eq_some_iff a hka k v).mp ha))
      rw [hb] at this
      exact absurd this (by simp)

theorem set_keys (e : logEntry) (k : String) (v : Any) :
    (e.set k v).map Prod.fst =
      if k ∈ e.map Prod.fst then e.map Prod.fst else e.map Prod.fst ++ [k] := by
  induction e with
  | nil => simp [logEntry.set]
  | cons p rest ih =>
    obtain ⟨k0, v0⟩ := p
    by_cases h : k0 = k
    · subst h
      simp [logEntry.set]
    · have h2 : ¬ k = k0 := fun hh => h hh.symm
      simp only [logEntry.set, h, if_false, List.map_cons, ih, List.mem_cons, h2, false_or]
      split_ifs <;> simp

theorem set_mem (e : logEntry) (k : String) (v : Any) (p : String × Any)
    (hp : p ∈ e.set k v) : p = (k, v) ∨ p ∈ e := by
  induction e with
  | nil => simpa [logEntry.set] using hp
  | cons q rest ih =>
    obtain ⟨k0, v0⟩ := q
    by_cases h : k0 = k
    · simp only [logEntry.set, h, if_true, List.mem_cons] at hp
      rcases hp with hp | hp
      · exact Or.inl hp
      · exact Or.inr (List.mem_cons_of_mem _ hp)
    · simp only [logEntry.set, h, if_false, List.mem_cons] at hp
      rcases hp with hp | hp
      · exact Or.inr (hp ▸ List.mem_cons_self _ _)
      · rcases ih hp with h1 | h1
        · exact Or.inl h1
        · exact Or.inr (List.mem_cons_of_mem _ h1)

theorem set_plainMap (e : logEntry) (k : String) (v : Any) (he : PlainMap e)
    (hv : json.Plain v = true) : PlainMap (e.set k v) := by
  refine ⟨?_, ?_⟩
  · rw [set_keys]
    split_ifs with h
    · exact he.1
    · exact List.Nodup.append he.1 (List.nodup_singleton k) (by simpa using h)
  · intro p hp
    rcases set_mem e k v p hp with h | h
    · rw [h]; exact hv
    · exact he.2 p h

theorem buildEntry_plainMap (rt : Runtime) (level : String) (val : Any)
    (fields : List LogField) (s : Sys) (hm : json.Plain (messageOf rt val) = true)
    (hf : ∀ f ∈ fields, json.Plain f.Value = true) :
    PlainMap (buildEntry rt level val fields s) := by
  have hfold : ∀ (fs : List LogField) (e : logEntry), PlainMap e →
      (∀ f ∈ fs, json.Plain f.Value = true) →
      PlainMap (fs.foldl (fun entry f => logEntry.set entry f.Key f.Value) e) := by
    intro fs
    induction fs with
    | nil => intro e he _; exact he
    | cons f fs ih =>
      intro e he hfs
      rw [List.foldl_cons]
      exact ih _ (set_plainMap e f.Key f.Value he (hfs f (List.mem_cons_self f fs)))
        (fun g hg => hfs g (List.mem_cons_of_mem f hg))
  have h0 : PlainMap ([] : logEntry) := ⟨by simp, by simp⟩
  unfold buildEntry
  simp only []
  apply hfold _ _ _ hf
  cases val <;>
    first
    | exact set_plainMap _ _ _ (set_plainMap _ _ _ (set_plainMap _ _ _ h0 rfl) rfl) rfl
    | simp [messageOf, json.Plain] at hm

theorem std_stdJson : Runtime.std.StdJson true := by
  intro entry out h
  simp [Runtime.std, h]

/-- C16, amended.  For every record that is a map of integers and of strings
that are valid UTF-8, and so for every record that `formatEntry` builds from a
timestamp, a level, a message and fields with such values,
`JsonFormatter.Format` returns no error, and reading the produced text back as
a JSON object, integers read exactly, yields the members of the record, in the
order of their keys: the same key set and, for every key, the same value.
The function `json.Marshal` is the one of the library (`StdJson`). -/
theorem json_round_trip (rt : Runtime) (short : Bool) (entry : logEntry)
    (hstd : rt.StdJson short) (hmap : PlainMap entry) :
    (JsonFormatter.Format rt entry).2 = none ∧
    json.parseObject (JsonFormatter.Format rt entry).1 = some (json.sortKeys entry) ∧
    (json.sortKeys entry).Perm entry ∧
    (∀ k : String, (json.sortKeys entry).get? k = entry.get? k) ∧
    (∀ (level : String) (val : Any) (fields : List LogField) (s : Sys),
      json.Plain (messageOf rt val) = true →
      (∀ f ∈ fields, json.Plain f.Value = true) →
      PlainMap (buildEntry rt level val fields s)) := by
  have hperm : (json.sortKeys entry).Perm entry := List.perm_insertionSort _ entry
  have hplain : ∀ p ∈ json.sortKeys entry, json.Plain p.2 = true :=
    fun p hp => hmap.2 p (hperm.mem_iff.mp hp)
  obtain ⟨b, hb⟩ := json_encodeMembers_some short (json.sortKeys entry) hplain
  have henc : json.encode short entry = some ⟨json.lbrace :: (b ++ [json.rbrace])⟩ := by
    simp [json.encode, hb]
  have hfmt := hstd entry _ henc
  refine ⟨?_, ?_, hperm, fun k => get?_perm _ _ hperm hmap.1 k,
    fun level val fields s hm hf => buildEntry_plainMap rt level val fields s hm hf⟩
  · simp [JsonFormatter.Format, hfmt]
  · simp only [JsonFormatter.Format, hfmt]
    exact json_parseObject_members short _ b hplain hb

/-- C16, amended, on the record that `formatEntry` builds for
`Infow("ready", port=8080)`. -/
theorem json_round_trip_witness :
    PlainMap (buildEntry Runtime.std "info" (.str "ready") [⟨"port", .int 8080⟩]
      Sys.sample) ∧
    json.parseObject (JsonFormatter.Format Runtime.std
      (buildEntry Runtime.std "info" (.str "ready") [⟨"port", .int 8080⟩] Sys.sample)).1 =
      some (json.sortKeys
        (buildEntry Runtime.std "info" (.str "ready") [⟨"port", .int 8080⟩] Sys.sample)) ∧
    (json.sortKeys (buildEntry Runtime.std "info" (.str "ready") [⟨"port", .int 8080⟩]
      Sys.sample)).get? "port" = some (.int 8080) :=
  ⟨⟨by decide, by decide⟩,
    (json_round_trip Runtime.std true
      (buildEntry Runtime.std "info" (.str "ready") [⟨"port", .int 8080⟩] Sys.sample)
      std_stdJson ⟨by decide, by decide⟩).2.1,
    by decide⟩

/-- C8, the claim as stated fails.  A nil pointer of a type whose `Error`
method reads through its receiver is a non-nil error, and its `Error()`
panics.  `Must` calls `err.Error()` first, so the panic leaves `Must` before
anything happens: no writer method is called and nothing is logged, and
although `ExitOnFatal` is true the process does not exit; `Must` panics with
the value of the runtime, not with a message and stack trace. -/
theorem must_error_method_panics :
    GoError.Error (some nilPointerError) = .panics nilDereference ∧
    Sys.sample.ExitOnFatal = true ∧
    (Must Runtime.sample (some nilPointerError) Sys.sample).1 = .panics nilDereference ∧
    (Must Runtime.sample (some nilPointerError) Sys.sample).1 ≠ .exits 1 ∧
    ((Must Runtime.sample (some nilPointerError) Sys.sample).2.since Sys.sample).length = 0 ∧
    ((Must Runtime.sample (some nilPointerError) Sys.sample).2.since Sys.sample).any
      Event.isWrite = false := by
  refine ⟨by decide, by decide, by decide, by decide, by decide, by decide⟩

/-- C11, the claim as stated fails.  With the JSON formatter active, a record
that holds a value whose `MarshalJSON` method panics makes `json.Marshal`, and
so `f.Format(entry)`, panic.  `formatEntry` has no `recover`: it does not
return, the panic `boom` leaves it, and nothing reaches the standard logger
(the one event is the record handed to the formatter). -/
theorem format_panic_leaves_formatEntry :
    Sys.sample.formatter.typeOf = "*logx.JsonFormatter" ∧
    (formatEntryCall Runtime.panicking "info" (.str "ready")
      [⟨"user", .obj ⟨false, none, none⟩⟩] Sys.sample).1 = .panics ⟨"boom"⟩ ∧
    ((formatEntryCall Runtime.panicking "info" (.str "ready")
      [⟨"user", .obj ⟨false, none, none⟩⟩] Sys.sample).2.since Sys.sample).map
      Event.isRecord = [true] := by
  refine ⟨by decide, by decide, by decide⟩

theorem formatEntryCall_returns (rt : Runtime) (level : String) (val : Any)
    (fields : List LogField) (s : Sys) (data : String) (err : GoError)
    (h : s.formatter.call rt (buildEntry rt level val fields s) = .returns data err) :
    s.formatter.Format rt (buildEntry rt level val fields s) = (data, err) ∧
    formatEntryCall rt level val fields s =
      (.ret (formatEntry rt level val fields s).1, (formatEntry rt level val fields s).2) := by
  have h1 : (s.emit (.record (buildEntry rt level val fields s))).formatter = s.formatter := rfl
  have hfmt : s.formatter.Format rt (buildEntry rt level val fields s) = (data, err) := by
    unfold Formatter.call at h
    cases hp : rt.formatPanic s.formatter (buildEntry rt level val fields s) with
    | some v => simp [hp] at h
    | none =>
      simp only [hp, FormatOutcome.returns.injEq] at h
      exact Prod.ext h.1 h.2
  refine ⟨hfmt, ?_⟩
  cases err with
  | none =>
    rw [formatEntry_ok rt level val fields s data hfmt]
    simp only [formatEntryCall, h1, h]
  | some e =>
    rw [formatEntry_err rt level val fields s data e hfmt]
    simp only [formatEntryCall, h1, h]

/-- C11, amended.  For every active formatter, level, value and fields such that
the call `f.Format` on the built record returns: `formatEntry` returns, and its
result carries no error.  If `Format` returns `data` and no error, the result
is exactly `data` and nothing but the record is handed out.  If `Format`
returns an error, the result is the textual rendering of the raw value alone,
and the error goes to the standard logger only. -/
theorem formatEntry_contains_errors (rt : Runtime) (level : String) (val : Any)
    (fields : List LogField) (s : Sys) :
    (∀ data : String,
      s.formatter.call rt (buildEntry rt level val fields s) = .returns data none →
      (formatEntryCall rt level val fields s).1 = .ret data ∧
      (formatEntryCall rt level val fields s).2.since s =
        [Event.record (buildEntry rt level val fields s)]) ∧
    (∀ (data : String) (err : ErrorValue),
      s.formatter.call rt (buildEntry rt level val fields s) = .returns data (some err) →
      (formatEntryCall rt level val fields s).1 = .ret (rt.fmtV val) ∧
      (formatEntryCall rt level val fields s).2.since s =
        [Event.record (buildEntry rt level val fields s),
          Event.stdlog ("Failed to format log entry: " ++ rt.fmtV (.obj err.val))]) ∧
    (∀ (data : String) (err : GoError),
      s.formatter.call rt (buildEntry rt level val fields s) = .returns data err →
      ∃ out : String, (formatEntryCall rt level val fields s).1 = .ret out ∧
        (out = data ∨ out = rt.fmtV val) ∧
        formatEntry rt level val fields s =
          (out, (formatEntryCall rt level val fields s).2)) := by
  have h1 : (s.emit (.record (buildEntry rt level val fields s))).formatter = s.formatter := rfl
  refine ⟨?_, ?_, ?_⟩
  · intro data h
    have hc : formatEntryCall rt level val fields s =
        (.ret data, s.emit (.record (buildEntry rt level val fields s))) := by
      simp only [formatEntryCall, h1, h]
    rw [hc]
    exact ⟨rfl, since_append _ _ _ (by simp [Sys.emit])⟩
  · intro data err h
    have hc : formatEntryCall rt level val fields s =
        (.ret (rt.fmtV val), (s.emit (.record (buildEntry rt level val fields s))).emit
          (.stdlog ("Failed to format log entry: " ++ rt.fmtV (.obj err.val)))) := by
      simp only [formatEntryCall, h1, h]
    rw [hc]
    exact ⟨rfl, since_append _ _ _ (by simp [Sys.emit])⟩
  · intro data err h
    obtain ⟨hfmt, hcall⟩ := formatEntryCall_returns rt level val fields s data err h
    refine ⟨(formatEntry rt level val fields s).1, by rw [hcall], ?_, by rw [hcall]⟩
    cases err with
    | none => left; rw [formatEntry_ok rt level val fields s data hfmt]
    | some e => right; rw [formatEntry_err rt level val fields s data e hfmt]

/-- C11, amended, with the JSON formatter active: once where `json.Marshal`
returns the text, once where it returns an error. -/
theorem formatEntry_contains_errors_witness :
    Sys.sample.formatter.call Runtime.sample
      (buildEntry Runtime.sample "info" (.str "ready") [] Sys.sample) =
      .returns "json" none ∧
    (formatEntryCall Runtime.sample "info" (.str "ready") [] Sys.sample).1 = .ret "json" ∧
    Sys.sample.formatter.call Runtime.failing
      (buildEntry Runtime.failing "info" (.str "ready") [] Sys.sample) =
      .returns "" (some (errorsNew "json: unsupported type")) ∧
    (formatEntryCall Runtime.failing "info" (.str "ready") [] Sys.sample).1 = .ret "ready" :=
  ⟨by decide,
    ((formatEntry_contains_errors Runtime.sample "info" (.str "ready") [] Sys.sample).1
      "json" (by decide)).1,
    by decide,
    ((formatEntry_contains_errors Runtime.failing "info" (.str "ready") [] Sys.sample).2.1
      "" (errorsNew "json: unsupported type") (by decide)).1⟩

/-- C16, the claim as stated fails.  A Go string need not be valid UTF-8.  For
the record that `formatEntry` builds for `Infow("ready", Field("name", v))`
with `v` the one-byte string `0xff`, `JsonFormatter.Format` succeeds, but
`json.Marshal` writes the replacement character for the byte: the text read
back maps `name` to the three-byte string U+FFFD, not to the one-byte string
that the record holds. -/
theorem json_invalid_utf8_not_restored :
    (buildEntry Runtime.std "info" (.str "ready")
      [Field Runtime.std "name" (.rawStr [255])] Sys.sample).get? "name" =
      some (.rawStr [255]) ∧
    (JsonFormatter.Format Runtime.std (buildEntry Runtime.std "info" (.str "ready")
      [Field Runtime.std "name" (.rawStr [255])] Sys.sample)).2 = none ∧
    (json.parseObject (JsonFormatter.Format Runtime.std (buildEntry Runtime.std "info"
      (.str "ready") [Field Runtime.std "name" (.rawStr [255])] Sys.sample)).1).bind
      (fun parsed => parsed.get? "name") =
      some (.str (String.singleton (Char.ofNat 65533))) ∧
    (json.parseObject (JsonFormatter.Format Runtime.std (buildEntry Runtime.std "info"
      (.str "ready") [Field Runtime.std "name" (.rawStr [255])] Sys.sample)).1).bind
      (fun parsed => parsed.get? "name") ≠
      (buildEntry Runtime.std "info" (.str "ready")
        [Field Runtime.std "name" (.rawStr [255])] Sys.sample).get? "name" ∧
    (Any.rawStr [255]).byteLength? = some 1 ∧
    (Any.str (String.singleton (Char.ofNat 65533))).byteLength? = some 3 := by
  refine ⟨by decide, by decide, by decide, by decide, by decide, by decide⟩

end Logx
